import Mathlib

set_option maxHeartbeats 1000000

/-!
Shallow embedding of the sequential graph executor of
`src/onnxruntime/core/framework/sequential_executor.cc`.

The executor walks an immutable execution plan (an ordered list of
`NodeExecutionPlan` entries), invoking each node's kernel, bracketing fenced
value accesses with before/after hooks, releasing the value slots named in the
node's free range, and (for partial runs) persisting a resume cursor in a
run registry keyed by a 64-bit run identifier.

Observable behaviour is modelled as a trace of `Event`s (fence hooks, kernel
compute invocations, value releases) plus the threaded `ExecutionFrame` and
registry state.  Side-effect-only collaborators (profiler, logging, memory
accounting, the end-of-range memory-pattern publication into the external
allocator cache) have no bearing on any modelled observable and are omitted,
as the specification classifies them as external side channels.

The `ExecutionFrame` class itself is not part of the source tree (only
`sequential_executor.cc` is); its operations used by the executor
(construction, `ReleaseMLValue`, `UpdateFeedAndFetches`, `GetOutputs`,
`program_counter_`) are modelled from the specification where so noted.
-/

namespace SeqExec

/-- Lifecycle state of one integer-indexed runtime value slot
(spec: a value is either unset, live, or released). -/
inductive SlotState where
  | unset
  | live
  | released
deriving DecidableEq

/-- Kernel-declared memory type of an input
(`OrtMemTypeCPUInput` versus anything else). -/
inductive MemType where
  | cpuInput
  | other
deriving DecidableEq

/-- Status codes used by the executor (`common::OK`, `common::FAIL`,
`common::RUNTIME_EXCEPTION`). -/
inductive ErrorCode where
  | OK
  | FAIL
  | RUNTIME_EXCEPTION
deriving DecidableEq

/-- Status categories (`common::NONE` for an OK status,
`common::ONNXRUNTIME` for statuses minted by `ORT_MAKE_STATUS(ONNXRUNTIME, ...)`). -/
inductive StatusCategory where
  | NONE
  | ONNXRUNTIME
deriving DecidableEq

/-- A structured status: category, code and message, mirroring `common::Status`. -/
structure Status where
  category : StatusCategory
  code : ErrorCode
  msg : String
deriving DecidableEq

/-- `Status::OK()`. -/
def Status.ok : Status := ⟨StatusCategory.NONE, ErrorCode.OK, ""⟩

/-- `Status::IsOK()`. -/
def Status.isOK (s : Status) : Bool :=
  match s.code with
  | ErrorCode.OK => true
  | _ => false

/-- One entry of `SequentialExecutionPlan::execution_plan`:
a node index plus the closed range `[free_from_index, free_to_index]` of
positions into the shared `to_be_freed` list. -/
structure NodeExecutionPlan where
  node_index : Nat
  free_from_index : Nat
  free_to_index : Nat
deriving DecidableEq

/-- Modelled from the spec: the mutable per-run `ExecutionFrame` state the
executor observes — the value-slot table, the resume cursor
`program_counter_` (default 0), and the feed/fetch index mappings.
The class itself lives outside the provided source tree. -/
structure ExecutionFrame where
  slots : List SlotState
  program_counter : Nat
  feed_mlvalue_idxs : List Nat
  fetch_mlvalue_idxs : List Nat
deriving DecidableEq

/-- Modelled from the spec: `ExecutionFrame::ReleaseMLValue` clears the slot
(the value becomes released and its memory is returned to the allocator).
The executor trusts the plan and does not re-check liveness. -/
def ExecutionFrame.releaseMLValue (f : ExecutionFrame) (idx : Nat) : ExecutionFrame :=
  { f with slots := f.slots.set idx SlotState.released }

/-- Modelled from the spec: `ExecutionFrame::UpdateFeedAndFetches` for a
resumed partial run updates the feed/fetch index mappings in place and must
not disturb unrelated slots nor the resume cursor. -/
def ExecutionFrame.updateFeedAndFetches (f : ExecutionFrame)
    (feeds fetches : List Nat) : ExecutionFrame :=
  { f with feed_mlvalue_idxs := feeds, fetch_mlvalue_idxs := fetches }

/-- A compute kernel as the executor sees it: `KernelDef` metadata
(`OpName`, `ExecQueueId`, `InputMemoryType`), the owning node's execution
provider (`Node().GetExecutionProviderType()`), the per-slot fence presence
exposed through `OpKernelContextInternal` (`InputFence` / `ImplicitInputFence`
/ `OutputFence` non-null tests) and the `Compute` step.  A kernel whose C++
`Compute` throws is modelled as returning a `RUNTIME_EXCEPTION` status, which
is exactly what the executor's `ORT_CATCH` boundary converts it into. -/
structure OpKernel where
  opName : String
  provider : String
  queueId : Nat
  numInputs : Nat
  numImplicitInputs : Nat
  numOutputs : Nat
  inputMemoryType : Nat → MemType
  inputFence : Nat → Bool
  implicitInputFence : Nat → Bool
  outputFence : Nat → Bool
  compute : ExecutionFrame → Status × ExecutionFrame

/-- The read-only part of `SessionState` consumed by the executor: the
execution plan and its shared `to_be_freed` list, the kernel registry
(`GetKernel`), the per-node fence predicate (`NodeHasFence`), the graph view
used for diagnostics (`GetNode(...).Name() / OpType()`), the
`GetTransferIntermidiateTensorOwnership` configuration flag, and (modelled
from the spec) the planned initial value-slot table a fresh
`ExecutionFrame` starts from. -/
structure SessionState where
  execution_plan : List NodeExecutionPlan
  to_be_freed : List Nat
  getKernel : Nat → Option OpKernel
  nodeHasFence : Nat → Bool
  nodeName : Nat → String
  nodeOpType : Nat → String
  transferOwnership : Bool
  initSlots : List SlotState

/-- Observable events of one `Execute` call: fence hooks (with the provider
identity and queue id they were invoked with), kernel compute invocations,
and value-slot releases.  Node identity is the plan entry's `node_index`. -/
inductive Event where
  | beforeInput (node i : Nat) (provider : String) (queue : Nat)
  | beforeImplicitInput (node i : Nat) (provider : String) (queue : Nat)
  | beforeOutput (node i : Nat) (provider : String) (queue : Nat)
  | compute (node : Nat)
  | afterInput (node i : Nat) (queue : Nat)
  | afterImplicitInput (node i : Nat) (queue : Nat)
  | afterOutput (node i : Nat) (queue : Nat)
  | release (slot : Nat)
deriving DecidableEq

/-- Constructor tag of an event, used to separate the trace blocks. -/
def Event.kind : Event → Nat
  | Event.beforeInput _ _ _ _ => 0
  | Event.beforeImplicitInput _ _ _ _ => 1
  | Event.beforeOutput _ _ _ _ => 2
  | Event.compute _ => 3
  | Event.afterInput _ _ _ => 4
  | Event.afterImplicitInput _ _ _ => 5
  | Event.afterOutput _ _ _ => 6
  | Event.release _ => 7

/-- `kCpuExecutionProvider`. -/
def kCpuExecutionProvider : String := "CPUExecutionProvider"

/-- The execution-provider identity used for a "before as input" hook:
the kernel's provider, overridden to the CPU provider when the kernel
declares that input's memory type as `OrtMemTypeCPUInput`. -/
def inputProvider (k : OpKernel) (i : Nat) : String :=
  if k.inputMemoryType i = MemType.cpuInput then kCpuExecutionProvider else k.provider

/-- The pre-compute fence pass over one node: `BeforeUsingAsInput` for
non-implicit inputs, then for implicit inputs (both with the CPU-input
provider override), then `BeforeUsingAsOutput` for outputs — each hook fired
only for slots whose fence pointer is non-null. -/
def beforeFenceEvents (k : OpKernel) (n : Nat) : List Event :=
  ((List.range k.numInputs).filterMap fun i =>
    if k.inputFence i then some (Event.beforeInput n i (inputProvider k i) k.queueId) else none)
  ++ ((List.range k.numImplicitInputs).filterMap fun i =>
    if k.implicitInputFence i then
      some (Event.beforeImplicitInput n i (inputProvider k i) k.queueId) else none)
  ++ ((List.range k.numOutputs).filterMap fun i =>
    if k.outputFence i then some (Event.beforeOutput n i k.provider k.queueId) else none)

/-- The post-compute fence pass over one node: `AfterUsedAsInput` for
non-implicit inputs, then for implicit inputs, then `AfterUsedAsOutput` for
outputs (no provider-identity override on the after hooks). -/
def afterFenceEvents (k : OpKernel) (n : Nat) : List Event :=
  ((List.range k.numInputs).filterMap fun i =>
    if k.inputFence i then some (Event.afterInput n i k.queueId) else none)
  ++ ((List.range k.numImplicitInputs).filterMap fun i =>
    if k.implicitInputFence i then some (Event.afterImplicitInput n i k.queueId) else none)
  ++ ((List.range k.numOutputs).filterMap fun i =>
    if k.outputFence i then some (Event.afterOutput n i k.queueId) else none)

/-- The positions of the shared `to_be_freed` list visited by
`ReleaseNodeMLValues`: `for (auto i = free_from_index; i <= free_to_index; ++i)`.
When `free_to_index < free_from_index` the loop body never runs. -/
def freePositions (nep : NodeExecutionPlan) : List Nat :=
  List.range' nep.free_from_index (nep.free_to_index + 1 - nep.free_from_index)

/-- `ReleaseNodeMLValues`: for each position in the node's free range, look up
the value-slot index in `to_be_freed` and release it in the frame.
`ExecutionFrame::ReleaseMLValue` is modelled from the spec as always
succeeding (the executor trusts the plan), so the C++ `ORT_RETURN_IF_ERROR`
never fires and the fold threads only the frame and the release trace. -/
def releaseNodeMLValues (ss : SessionState) (nep : NodeExecutionPlan)
    (frame : ExecutionFrame) : ExecutionFrame × List Event :=
  (freePositions nep).foldl
    (fun st i =>
      let idx := ss.to_be_freed.getD i 0
      (st.1.releaseMLValue idx, st.2 ++ [Event.release idx]))
    (frame, [])

/-- The status the executor returns when the cooperative terminate flag is
observed: `ORT_MAKE_STATUS(ONNXRUNTIME, FAIL, "Exiting due to terminate flag being set to true.")`. -/
def terminatedStatus : Status :=
  ⟨StatusCategory.ONNXRUNTIME, ErrorCode.FAIL,
   "Exiting due to terminate flag being set to true."⟩

/-- The status returned when `GetKernel` yields a null kernel for a node. -/
def nullKernelStatus (ss : SessionState) (n : Nat) : Status :=
  ⟨StatusCategory.ONNXRUNTIME, ErrorCode.FAIL,
   "Got nullptr from GetKernel for node: " ++ ss.nodeName n⟩

/-- The wrapping the executor applies to a non-success compute status:
category and code are preserved, the message is annotated with the failing
node's op type and name. -/
def wrapComputeStatus (ss : SessionState) (n : Nat) (st : Status) : Status :=
  ⟨st.category, st.code,
   "Non-zero status code returned while running " ++ ss.nodeOpType n
     ++ " node. Name:\x27" ++ ss.nodeName n ++ "\x27 Status Message: " ++ st.msg⟩

/-- Out-of-range default for plan lookups (never reached by an in-range
window; its free range is empty). -/
def defaultNEP : NodeExecutionPlan := ⟨0, 1, 0⟩

/-- The plan entry at program-counter position `pc`. -/
def planAt (ss : SessionState) (pc : Nat) : NodeExecutionPlan :=
  ss.execution_plan.getD pc defaultNEP

/-- One iteration of the driver loop after the terminate and pruning checks:
kernel resolution (a null kernel fails the whole run), the pre-compute fence
pass, `Compute`, failure wrapping, the post-compute fence pass, and
`ReleaseNodeMLValues`. -/
def executeNode (ss : SessionState) (nep : NodeExecutionPlan)
    (frame : ExecutionFrame) : Status × ExecutionFrame × List Event :=
  match ss.getKernel nep.node_index with
  | none => (nullKernelStatus ss nep.node_index, frame, [])
  | some k =>
      let n := nep.node_index
      let evB := if ss.nodeHasFence n then beforeFenceEvents k n else []
      let r := k.compute frame
      if r.1.isOK then
        let evA := if ss.nodeHasFence n then afterFenceEvents k n else []
        let rel := releaseNodeMLValues ss nep r.2
        (Status.ok, rel.1, evB ++ [Event.compute n] ++ evA ++ rel.2)
      else
        (wrapComputeStatus ss n r.1, r.2, evB ++ [Event.compute n])

/-- The driver loop of the inner `SequentialExecutor::Execute` over the
window `[pc, pc + n)`: per iteration, check the terminate flag, apply
only-execute-path-to-fetches pruning (`prune` is
`only_execute_path_to_fetches_ && to_be_executed_nodes != nullptr`, and
`toExec` the membership test of the precomputed reachability set), then run
the per-node protocol, stopping at the first non-success status.  The
terminate flag is modelled as a value fixed for the call; the source re-reads
a shared flag at the top of every iteration. -/
def executeRange (ss : SessionState) (terminate prune : Bool) (toExec : Nat → Bool)
    (frame : ExecutionFrame) (pc : Nat) : Nat → Status × ExecutionFrame × List Event
  | 0 => (Status.ok, frame, [])
  | Nat.succ m =>
      if terminate then (terminatedStatus, frame, [])
      else
        let nep := planAt ss pc
        if prune && !(toExec nep.node_index) then
          executeRange ss terminate prune toExec frame (pc + 1) m
        else
          let r := executeNode ss nep frame
          if r.1.isOK then
            let rest := executeRange ss terminate prune toExec r.2.1 (pc + 1) m
            (rest.1, rest.2.1, r.2.2 ++ rest.2.2)
          else r

/-- `DEFAULT_RUN_ID`.  Modelled from the spec: the header defining the run-id
sentinels is not in the source tree; the spec reserves one sentinel for
"no partial-run semantics" (full execute-and-discard) and another for
"start a new partial run", while explicit run ids are nonnegative
(the source enforces `run_id >= 0` on the resume path), so the sentinels are
distinct negative values. -/
def DEFAULT_RUN_ID : Int := -1

/-- `DEFAULT_PARTIAL_RUN_ID`.  Modelled from the spec, see `DEFAULT_RUN_ID`. -/
def DEFAULT_PARTIAL_RUN_ID : Int := -2

/-- `INT64_MAX`. -/
def INT64_MAX : Int := 2 ^ 63 - 1

/-- The lock-protected run registry of the session
(`graph_runs_` plus `graph_runs_counter_`). -/
structure GraphRuns where
  runs : List (Int × ExecutionFrame)
  counter : Int
deriving DecidableEq

/-- `graph_runs_.find(id)`. -/
def registryFind (runs : List (Int × ExecutionFrame)) (id : Int) : Option ExecutionFrame :=
  (runs.find? fun p => p.1 = id).map Prod.snd

/-- `graph_runs_.insert({id, frame})`: like `std::map::insert`, a no-op when
the key is already present. -/
def registryInsert (runs : List (Int × ExecutionFrame)) (id : Int)
    (frame : ExecutionFrame) : List (Int × ExecutionFrame) :=
  match registryFind runs id with
  | some _ => runs
  | none => runs ++ [(id, frame)]

/-- Write back the (in C++ in-place mutated) frame stored under `id`. -/
def registryUpdate (runs : List (Int × ExecutionFrame)) (id : Int)
    (frame : ExecutionFrame) : List (Int × ExecutionFrame) :=
  runs.map fun p => if p.1 = id then (id, frame) else p

/-- `graph_runs_.erase(it)`. -/
def registryErase (runs : List (Int × ExecutionFrame)) (id : Int) :
    List (Int × ExecutionFrame) :=
  runs.filter fun p => p.1 ≠ id

/-- Modelled from the spec: the `ExecutionFrame` constructor — a fresh frame
gets the planned value-slot table, resume cursor 0 and the caller's
feed/fetch index mappings. -/
def mkFrame (ss : SessionState) (feeds fetches : List Nat) : ExecutionFrame :=
  ⟨ss.initSlots, 0, feeds, fetches⟩

/-- The kernel op name consulted by the partial-window scan
(`GetKernel(idx)->KernelDef().OpName()`); the source dereferences the kernel
pointer without a null check, so the `none` case (undefined behaviour in C++)
is given an arbitrary non-"YieldOp" value. -/
def scanOpName (ss : SessionState) (idx : Nat) : String :=
  ((ss.getKernel idx).map OpKernel.opName).getD ""

/-- The scan loop locating the end of a partial-execution window:
`for (pce = start; pce < size && (OpName(plan[pce]) != "YieldOp" || pce == start); pce += 1);`
Fuel counts the remaining positions up to plan end, so running out of fuel is
exactly the `pce < size` exit. -/
def scanLoop (ss : SessionState) (start : Nat) : Nat → Nat → Nat
  | pce, 0 => pce
  | pce, Nat.succ f =>
      if scanOpName ss (planAt ss pce).node_index ≠ "YieldOp" ∨ pce = start then
        scanLoop ss start (pce + 1) f
      else pce

/-- `program_counter_end` for a window starting at `start`. -/
def findWindowEnd (ss : SessionState) (start : Nat) : Nat :=
  scanLoop ss start start (ss.execution_plan.length - start)

/-- The fence-wait-only pass performed, when the window did not reach plan
end, over the node at the window end: the same null-kernel check and
pre-compute fence pass as in the driver loop, without invoking `Compute`. -/
def boundaryFencePass (ss : SessionState) (pce : Nat) : Status × List Event :=
  if pce < ss.execution_plan.length then
    let nep := planAt ss pce
    match ss.getKernel nep.node_index with
    | none => (nullKernelStatus ss nep.node_index, [])
    | some k =>
        (Status.ok,
         if ss.nodeHasFence nep.node_index then beforeFenceEvents k nep.node_index else [])
  else (Status.ok, [])

/-- Outcome of one public `Execute` call: a returned status, or a fatal
`ORT_ENFORCE` abort (an exception that is not converted at this boundary). -/
inductive RunOutcome where
  | ok
  | err (s : Status)
  | fatal (enforced : String)
deriving DecidableEq

/-- Everything one public `Execute` call produces: the outcome, the possibly
rewritten `run_id` out-parameter, the registry state after the call, and the
observable trace. -/
structure ExecOutput where
  outcome : RunOutcome
  run_id : Int
  reg : GraphRuns
  events : List Event
deriving DecidableEq

/-- The tail of the partial-execution branch shared by the new-run and resume
paths: scan for the window end, run the window, perform the fence-wait-only
pass on the boundary node, extract outputs (`GetOutputs` is external frame
code, modelled from the spec as succeeding without touching the modelled
state), advance the cursor — one extra position when intermediate-tensor
ownership transfers to the caller — and erase the registry entry exactly when
the new cursor equals the plan size. -/
def runWindow (ss : SessionState) (terminate prune : Bool) (toExec : Nat → Bool)
    (rid : Int) (frame : ExecutionFrame) (g : GraphRuns) : ExecOutput :=
  let size := ss.execution_plan.length
  let pce := findWindowEnd ss frame.program_counter
  let r := executeRange ss terminate prune toExec frame frame.program_counter
            (pce - frame.program_counter)
  if r.1.isOK then
    let fp := boundaryFencePass ss pce
    if fp.1.isOK then
      let newpc := if ss.transferOwnership then pce + 1 else pce
      let frame2 := { r.2.1 with program_counter := newpc }
      let runs2 := registryUpdate g.runs rid frame2
      if newpc = size then
        ⟨RunOutcome.ok, rid, ⟨registryErase runs2 rid, g.counter⟩, r.2.2 ++ fp.2⟩
      else
        ⟨RunOutcome.ok, rid, ⟨runs2, g.counter⟩, r.2.2 ++ fp.2⟩
    else
      ⟨RunOutcome.err fp.1, rid, ⟨registryUpdate g.runs rid r.2.1, g.counter⟩, r.2.2⟩
  else
    ⟨RunOutcome.err r.1, rid, ⟨registryUpdate g.runs rid r.2.1, g.counter⟩, r.2.2⟩

/-- The public `SequentialExecutor::Execute`:
`run_id == DEFAULT_RUN_ID` runs the whole plan on a throwaway frame without
touching the registry; `run_id == DEFAULT_PARTIAL_RUN_ID` creates a frame,
inserts it under the current counter (checking `ORT_ENFORCE(run_id < INT64_MAX)`
— on `run_id`, which still holds the sentinel), returns the minted id and
bumps the counter; an explicit id must be nonnegative and present in the
registry (`ORT_ENFORCE` otherwise) and resumes that frame after
`UpdateFeedAndFetches`. -/
def Execute (ss : SessionState) (terminate prune : Bool) (toExec : Nat → Bool)
    (feeds fetches : List Nat) (run_id : Int) (g : GraphRuns) : ExecOutput :=
  let size := ss.execution_plan.length
  if run_id = DEFAULT_RUN_ID then
    let frame := mkFrame ss feeds fetches
    let r := executeRange ss terminate prune toExec frame 0 size
    if r.1.isOK then
      -- `frame.GetOutputs(...)`: external frame code, modelled from the
      -- spec as extracting the fetches without failing.
      ⟨RunOutcome.ok, run_id, g, r.2.2⟩
    else
      ⟨RunOutcome.err r.1, run_id, g, r.2.2⟩
  else
    if run_id = DEFAULT_PARTIAL_RUN_ID then
      let frame := mkFrame ss feeds fetches
      let runs1 := registryInsert g.runs g.counter frame
      if run_id < INT64_MAX then
        let rid := g.counter
        runWindow ss terminate prune toExec rid frame ⟨runs1, g.counter + 1⟩
      else
        ⟨RunOutcome.fatal "run_id < INT64_MAX", run_id, ⟨runs1, g.counter⟩, []⟩
    else
      if run_id ≥ 0 then
        match registryFind g.runs run_id with
        | none => ⟨RunOutcome.fatal "it != graph_runs_.end()", run_id, g, []⟩
        | some frame0 =>
            let frame := frame0.updateFeedAndFetches feeds fetches
            runWindow ss terminate prune toExec run_id frame
              ⟨registryUpdate g.runs run_id frame, g.counter⟩
      else
        ⟨RunOutcome.fatal "run_id >= 0", run_id, g, []⟩

/-- The caller-side resume loop of the suspension protocol: invoke `Execute`,
and while the run's registry entry survives the call (the run is suspended),
re-invoke with the returned identifier, concatenating the traces.  Fuel
bounds the number of invocations. -/
def resumeLoop (ss : SessionState) (toExec : Nat → Bool) (feeds fetches : List Nat) :
    Int → GraphRuns → Nat → RunOutcome × GraphRuns × List Event
  | _, g, 0 => (RunOutcome.ok, g, [])
  | rid, g, Nat.succ f =>
      let out := Execute ss false false toExec feeds fetches rid g
      match out.outcome with
      | RunOutcome.ok =>
          if (registryFind out.reg.runs out.run_id).isSome then
            let rest := resumeLoop ss toExec feeds fetches out.run_id out.reg f
            (rest.1, rest.2.1, out.events ++ rest.2.2)
          else (RunOutcome.ok, out.reg, out.events)
      | o => (o, out.reg, out.events)

/-- A full partial-run session: start a new partial run and resume it until
its registry entry disappears (or fuel runs out). -/
def runToCompletion (ss : SessionState) (toExec : Nat → Bool)
    (feeds fetches : List Nat) (g : GraphRuns) (fuel : Nat) :
    RunOutcome × GraphRuns × List Event :=
  resumeLoop ss toExec feeds fetches DEFAULT_PARTIAL_RUN_ID g fuel

/-- The node-visit sequence of a trace: the kernel-compute events in order. -/
def computeTrace (ev : List Event) : List Nat :=
  ev.filterMap fun e =>
    match e with
    | Event.compute n => some n
    | _ => none

/-- The value-release sequence of a trace: the released slot indices in order. -/
def releaseTrace (ev : List Event) : List Nat :=
  ev.filterMap fun e =>
    match e with
    | Event.release s => some s
    | _ => none

/-! ### Specification-side descriptions of successful traces -/

/-- The full observable trace of one successful node visit: pre-compute fence
pass, the compute invocation, post-compute fence pass, value releases. -/
def visitTrace (ss : SessionState) (nep : NodeExecutionPlan) : List Event :=
  match ss.getKernel nep.node_index with
  | none => []
  | some k =>
      (if ss.nodeHasFence nep.node_index then beforeFenceEvents k nep.node_index else [])
      ++ [Event.compute nep.node_index]
      ++ (if ss.nodeHasFence nep.node_index then afterFenceEvents k nep.node_index else [])
      ++ (freePositions nep).map (fun i => Event.release (ss.to_be_freed.getD i 0))

/-- The trace of a successful window `[pc, pc + n)`. -/
def rangeTrace (ss : SessionState) (pc : Nat) : Nat → List Event
  | 0 => []
  | Nat.succ m => visitTrace ss (planAt ss pc) ++ rangeTrace ss (pc + 1) m

/-- The node-index sequence of plan positions `[pc, pc + n)`. -/
def planSeg (ss : SessionState) (pc : Nat) : Nat → List Nat
  | 0 => []
  | Nat.succ m => (planAt ss pc).node_index :: planSeg ss (pc + 1) m

/-- A plan entry has a kernel and that kernel's compute succeeds on every
frame. -/
def kernelTotalOK (ss : SessionState) (nep : NodeExecutionPlan) : Prop :=
  ∃ k, ss.getKernel nep.node_index = some k ∧ ∀ f, ((k.compute f).1).isOK = true

/-- The concatenation, in plan order, of the `to_be_freed` positions each
node's free range names. -/
def planFreePositions : List NodeExecutionPlan → List Nat
  | [] => []
  | nep :: t => freePositions nep ++ planFreePositions t

/-- The node an event belongs to (`none` for a release event, which names a
value slot rather than a node). -/
def eventNode : Event → Option Nat
  | Event.beforeInput n _ _ _ => some n
  | Event.beforeImplicitInput n _ _ _ => some n
  | Event.beforeOutput n _ _ _ => some n
  | Event.compute n => some n
  | Event.afterInput n _ _ => some n
  | Event.afterImplicitInput n _ _ => some n
  | Event.afterOutput n _ _ => some n
  | Event.release _ => none

/-! ### Concrete fixtures for witnesses and counterexamples -/

/-- Fixture: a kernel whose compute always succeeds, with the given metadata. -/
def fixKernel (name provider : String) (queue nIn nImp nOut : Nat)
    (inFence impFence outFence : Nat → Bool) (memT : Nat → MemType) : OpKernel :=
  { opName := name, provider := provider, queueId := queue,
    numInputs := nIn, numImplicitInputs := nImp, numOutputs := nOut,
    inputMemoryType := memT, inputFence := inFence,
    implicitInputFence := impFence, outputFence := outFence,
    compute := fun f => (Status.ok, f) }

/-- Fixture: a fence-free always-succeeding kernel. -/
def plainKernel (name : String) : OpKernel :=
  fixKernel name "CUDAExecutionProvider" 0 0 0 0
    (fun _ => false) (fun _ => false) (fun _ => false) (fun _ => MemType.other)

/-- Fixture: a plan entry with an empty free range. -/
def nofreeNEP (n : Nat) : NodeExecutionPlan := ⟨n, 1, 0⟩

/-- Fixture: the empty registry with counter 0. -/
def g0 : GraphRuns := ⟨[], 0⟩

/-- Fixture: a 2-node fence-free plan whose nodes free value slots 5 and 6
respectively (`to_be_freed = [5, 6]`). -/
def ssA : SessionState :=
  { execution_plan := [⟨0, 0, 0⟩, ⟨1, 1, 1⟩], to_be_freed := [5, 6],
    getKernel := fun _ => some (plainKernel "Add"),
    nodeHasFence := fun _ => false,
    nodeName := fun n => "nodeA" ++ toString n,
    nodeOpType := fun _ => "Add",
    transferOwnership := false,
    initSlots := [SlotState.live, SlotState.live, SlotState.live,
      SlotState.live, SlotState.live, SlotState.live, SlotState.live] }

/-- Fixture: a kernel with one fenced input and one fenced output. -/
def fencedKernel (name : String) : OpKernel :=
  fixKernel name "CUDAExecutionProvider" 0 1 0 1
    (fun _ => true) (fun _ => false) (fun _ => true) (fun _ => MemType.other)

/-- Fixture: a 5-node plan in which the node at position 2 is the suspension
operator (`YieldOp`) and nodes 2 and 3 carry fences; non-transfer mode. -/
def ss5y : SessionState :=
  { execution_plan := [nofreeNEP 0, nofreeNEP 1, nofreeNEP 2, nofreeNEP 3, nofreeNEP 4],
    to_be_freed := [],
    getKernel := fun n =>
      some (if n = 2 then fencedKernel "YieldOp" else fencedKernel "Add"),
    nodeHasFence := fun n => n == 2 || n == 3,
    nodeName := fun n => "nodeY" ++ toString n,
    nodeOpType := fun n => if n = 2 then "YieldOp" else "Add",
    transferOwnership := false,
    initSlots := [SlotState.live] }

/-- Fixture: a fence-free 3-node plan with the suspension operator at
position 1, ownership transfer enabled. -/
def ss3T : SessionState :=
  { execution_plan := [nofreeNEP 0, nofreeNEP 1, nofreeNEP 2], to_be_freed := [],
    getKernel := fun n => some (plainKernel (if n = 1 then "YieldOp" else "Add")),
    nodeHasFence := fun _ => false,
    nodeName := fun n => "nodeT" ++ toString n,
    nodeOpType := fun n => if n = 1 then "YieldOp" else "Add",
    transferOwnership := true,
    initSlots := [] }

/-- Fixture: a fence-free 1-node plan, ownership transfer enabled. -/
def ss1T : SessionState :=
  { execution_plan := [nofreeNEP 0], to_be_freed := [],
    getKernel := fun _ => some (plainKernel "Add"),
    nodeHasFence := fun _ => false,
    nodeName := fun _ => "node0", nodeOpType := fun _ => "Add",
    transferOwnership := true,
    initSlots := [] }

/-- Fixture: `ss1T` without ownership transfer. -/
def ss1 : SessionState := { ss1T with transferOwnership := false }

/-- Fixture: a kernel that always fails with the generic `FAIL` code. -/
def failingKernel (name : String) : OpKernel :=
  { plainKernel name with
    compute := fun f =>
      (⟨StatusCategory.ONNXRUNTIME, ErrorCode.FAIL, "boom"⟩, f) }

/-- Fixture: a 2-node plan whose second node's compute fails. -/
def ssFail : SessionState :=
  { execution_plan := [⟨0, 0, 0⟩, ⟨1, 1, 1⟩], to_be_freed := [5, 6],
    getKernel := fun n =>
      some (if n = 1 then failingKernel "Mul" else plainKernel "Add"),
    nodeHasFence := fun _ => false,
    nodeName := fun n => "nodeF" ++ toString n,
    nodeOpType := fun n => if n = 1 then "Mul" else "Add",
    transferOwnership := false,
    initSlots := [SlotState.live, SlotState.live, SlotState.live,
      SlotState.live, SlotState.live, SlotState.live, SlotState.live] }

/-- Fixture: a fully fenced kernel — two inputs (the second declared
CPU-resident), one implicit input, one output. -/
def richKernel : OpKernel :=
  fixKernel "Conv" "CUDAExecutionProvider" 3 2 1 1
    (fun _ => true) (fun _ => true) (fun _ => true)
    (fun i => if i = 1 then MemType.cpuInput else MemType.other)

/-- Fixture: a 1-node fenced plan around `richKernel`, freeing slot 9. -/
def ssRich : SessionState :=
  { execution_plan := [⟨0, 0, 0⟩], to_be_freed := [9],
    getKernel := fun _ => some richKernel,
    nodeHasFence := fun _ => true,
    nodeName := fun _ => "rich", nodeOpType := fun _ => "Conv",
    transferOwnership := false,
    initSlots := List.replicate 10 SlotState.live }

/-- Fixture: a 3-node plan for pruning — node 1 is excluded from the
reachability set; node 1 would free slot 6. -/
def ssPrune : SessionState :=
  { execution_plan := [⟨0, 0, 0⟩, ⟨1, 1, 1⟩, ⟨2, 2, 2⟩], to_be_freed := [5, 6, 7],
    getKernel := fun _ => some (plainKernel "Add"),
    nodeHasFence := fun _ => false,
    nodeName := fun n => "nodeP" ++ toString n,
    nodeOpType := fun _ => "Add",
    transferOwnership := false,
    initSlots := List.replicate 8 SlotState.live }

/-- Fixture: reachability set for `ssPrune` excluding node 1. -/
def pruneSet : Nat → Bool := fun n => n != 1

/-! ### Basic facts -/

theorem isOK_ok : Status.ok.isOK = true := rfl

theorem isOK_terminated : terminatedStatus.isOK = false := rfl

theorem isOK_wrap (ss : SessionState) (n : Nat) (st : Status) :
    (wrapComputeStatus ss n st).isOK = st.isOK := rfl

theorem releaseNodeMLValues_eventsAux (ss : SessionState) (l : List Nat) :
    ∀ (f : ExecutionFrame) (acc : List Event),
      l.foldl (fun st i =>
          ((st.1.releaseMLValue (ss.to_be_freed.getD i 0) : ExecutionFrame),
           st.2 ++ [Event.release (ss.to_be_freed.getD i 0)])) (f, acc)
        = (l.foldl (fun fr i => fr.releaseMLValue (ss.to_be_freed.getD i 0)) f,
           acc ++ l.map (fun i => Event.release (ss.to_be_freed.getD i 0))) := by
  induction l with
  | nil => intro f acc; simp
  | cons a t ih =>
      intro f acc
      simp only [List.foldl_cons, List.map_cons, ih]
      simp

theorem releaseNodeMLValues_events (ss : SessionState) (nep : NodeExecutionPlan)
    (f : ExecutionFrame) :
    (releaseNodeMLValues ss nep f).2
      = (freePositions nep).map (fun i => Event.release (ss.to_be_freed.getD i 0)) := by
  unfold releaseNodeMLValues
  rw [releaseNodeMLValues_eventsAux]
  simp

theorem executeNode_of_ok (ss : SessionState) (nep : NodeExecutionPlan)
    (frame : ExecutionFrame) (k : OpKernel)
    (hk : ss.getKernel nep.node_index = some k)
    (hok : ((k.compute frame).1).isOK = true) :
    executeNode ss nep frame
      = (Status.ok, (releaseNodeMLValues ss nep (k.compute frame).2).1,
         visitTrace ss nep) := by
  unfold executeNode visitTrace
  rw [hk]
  simp only [hok, if_pos]
  rw [releaseNodeMLValues_events]

theorem executeNode_of_fail (ss : SessionState) (nep : NodeExecutionPlan)
    (frame : ExecutionFrame) (k : OpKernel)
    (hk : ss.getKernel nep.node_index = some k)
    (hok : ((k.compute frame).1).isOK = false) :
    executeNode ss nep frame
      = (wrapComputeStatus ss nep.node_index (k.compute frame).1, (k.compute frame).2,
         (if ss.nodeHasFence nep.node_index then beforeFenceEvents k nep.node_index else [])
           ++ [Event.compute nep.node_index]) := by
  unfold executeNode
  rw [hk]
  simp [hok]

/-- Unfolding of one non-pruned, non-terminated driver iteration. -/
theorem executeRange_succ (ss : SessionState) (toExec : Nat → Bool)
    (frame : ExecutionFrame) (pc m : Nat) :
    executeRange ss false false toExec frame pc (m + 1)
      = (let r := executeNode ss (planAt ss pc) frame
         if r.1.isOK then
           let rest := executeRange ss false false toExec r.2.1 (pc + 1) m
           (rest.1, rest.2.1, r.2.2 ++ rest.2.2)
         else r) := rfl

/-- A successful window executes exactly the per-node protocol of every
position in range, in ascending order. -/
theorem executeRange_of_ok (ss : SessionState) (toExec : Nat → Bool) :
    ∀ (n pc : Nat) (frame : ExecutionFrame),
      (∀ j, j < n → kernelTotalOK ss (planAt ss (pc + j))) →
      (executeRange ss false false toExec frame pc n).1 = Status.ok ∧
      (executeRange ss false false toExec frame pc n).2.2 = rangeTrace ss pc n := by
  intro n
  induction n with
  | zero => intro pc frame _; exact ⟨rfl, rfl⟩
  | succ m ih =>
      intro pc frame hker
      obtain ⟨k, hk, hok⟩ := hker 0 (Nat.succ_pos m)
      have hstep := executeNode_of_ok ss (planAt ss pc) frame k hk (hok frame)
      have hrest := ih (pc + 1) (releaseNodeMLValues ss (planAt ss pc) (k.compute frame).2).1
        (fun j hj => by
          have := hker (j + 1) (Nat.succ_lt_succ hj)
          rwa [Nat.add_comm j 1, ← Nat.add_assoc] at this)
      rw [executeRange_succ, hstep]
      simp only [isOK_ok, if_true]
      exact ⟨hrest.1, by rw [hrest.2]; rfl⟩

/-! ### Trace projections -/

theorem computeTrace_append (l1 l2 : List Event) :
    computeTrace (l1 ++ l2) = computeTrace l1 ++ computeTrace l2 :=
  List.filterMap_append l1 l2 _

theorem releaseTrace_append (l1 l2 : List Event) :
    releaseTrace (l1 ++ l2) = releaseTrace l1 ++ releaseTrace l2 :=
  List.filterMap_append l1 l2 _

/-- Every event produced by an `if … then some (g i) else none` block over a
range has the kind `g` produces. -/
theorem kind_of_mem_block {α : Type} (l : List α) (p : α → Bool) (g : α → Event)
    (K : Nat) (hg : ∀ a, (g a).kind = K) :
    ∀ e ∈ l.filterMap (fun a => if p a then some (g a) else none), e.kind = K := by
  intro e he
  rw [List.mem_filterMap] at he
  obtain ⟨a, _, ha⟩ := he
  by_cases h : p a
  · rw [if_pos h] at ha
    cases ha
    exact hg a
  · rw [if_neg h] at ha
    cases ha

theorem kind_of_mem_beforeFence (k : OpKernel) (n : Nat) :
    ∀ e ∈ beforeFenceEvents k n, e.kind = 0 ∨ e.kind = 1 ∨ e.kind = 2 := by
  intro e he
  unfold beforeFenceEvents at he
  rcases List.mem_append.1 he with h | h
  · rcases List.mem_append.1 h with h' | h'
    · exact Or.inl (kind_of_mem_block _ k.inputFence
        (fun i => Event.beforeInput n i (inputProvider k i) k.queueId) 0
        (fun _ => rfl) e h')
    · exact Or.inr (Or.inl (kind_of_mem_block _ k.implicitInputFence
        (fun i => Event.beforeImplicitInput n i (inputProvider k i) k.queueId) 1
        (fun _ => rfl) e h'))
  · exact Or.inr (Or.inr (kind_of_mem_block _ k.outputFence
        (fun i => Event.beforeOutput n i k.provider k.queueId) 2
        (fun _ => rfl) e h))

theorem kind_of_mem_afterFence (k : OpKernel) (n : Nat) :
    ∀ e ∈ afterFenceEvents k n, e.kind = 4 ∨ e.kind = 5 ∨ e.kind = 6 := by
  intro e he
  unfold afterFenceEvents at he
  rcases List.mem_append.1 he with h | h
  · rcases List.mem_append.1 h with h' | h'
    · exact Or.inl (kind_of_mem_block _ k.inputFence
        (fun i => Event.afterInput n i k.queueId) 4 (fun _ => rfl) e h')
    · exact Or.inr (Or.inl (kind_of_mem_block _ k.implicitInputFence
        (fun i => Event.afterImplicitInput n i k.queueId) 5 (fun _ => rfl) e h'))
  · exact Or.inr (Or.inr (kind_of_mem_block _ k.outputFence
        (fun i => Event.afterOutput n i k.queueId) 6 (fun _ => rfl) e h))

theorem computeTrace_eq_nil {l : List Event} (h : ∀ e ∈ l, e.kind ≠ 3) :
    computeTrace l = [] := by
  unfold computeTrace
  rw [List.filterMap_eq_nil_iff]
  intro a ha
  cases a with
  | compute m => exact absurd rfl (h _ ha)
  | beforeInput _ _ _ _ => rfl
  | beforeImplicitInput _ _ _ _ => rfl
  | beforeOutput _ _ _ _ => rfl
  | afterInput _ _ _ => rfl
  | afterImplicitInput _ _ _ => rfl
  | afterOutput _ _ _ => rfl
  | release _ => rfl

theorem releaseTrace_eq_nil {l : List Event} (h : ∀ e ∈ l, e.kind ≠ 7) :
    releaseTrace l = [] := by
  unfold releaseTrace
  rw [List.filterMap_eq_nil_iff]
  intro a ha
  cases a with
  | release m => exact absurd rfl (h _ ha)
  | beforeInput _ _ _ _ => rfl
  | beforeImplicitInput _ _ _ _ => rfl
  | beforeOutput _ _ _ _ => rfl
  | afterInput _ _ _ => rfl
  | afterImplicitInput _ _ _ => rfl
  | afterOutput _ _ _ => rfl
  | compute _ => rfl

theorem computeTrace_beforeFence (k : OpKernel) (n : Nat) :
    computeTrace (beforeFenceEvents k n) = [] :=
  computeTrace_eq_nil fun e he => by
    rcases kind_of_mem_beforeFence k n e he with h | h | h <;> omega

theorem computeTrace_afterFence (k : OpKernel) (n : Nat) :
    computeTrace (afterFenceEvents k n) = [] :=
  computeTrace_eq_nil fun e he => by
    rcases kind_of_mem_afterFence k n e he with h | h | h <;> omega

theorem computeTrace_releases (ss : SessionState) (nep : NodeExecutionPlan) :
    computeTrace ((freePositions nep).map
      (fun i => Event.release (ss.to_be_freed.getD i 0))) = [] :=
  computeTrace_eq_nil fun e he => by
    rw [List.mem_map] at he
    obtain ⟨i, _, hi⟩ := he
    rw [← hi]
    simp [Event.kind]

theorem computeTrace_visitTrace (ss : SessionState) (nep : NodeExecutionPlan)
    (k : OpKernel) (hk : ss.getKernel nep.node_index = some k) :
    computeTrace (visitTrace ss nep) = [nep.node_index] := by
  unfold visitTrace
  rw [hk]
  simp only [computeTrace_append]
  rw [computeTrace_releases ss nep]
  by_cases hf : ss.nodeHasFence nep.node_index
  · rw [if_pos hf, if_pos hf, computeTrace_beforeFence, computeTrace_afterFence]
    rfl
  · rw [if_neg hf, if_neg hf]
    rfl

theorem computeTrace_rangeTrace (ss : SessionState) :
    ∀ (n pc : Nat),
      (∀ j, j < n → ∃ k, ss.getKernel (planAt ss (pc + j)).node_index = some k) →
      computeTrace (rangeTrace ss pc n) = planSeg ss pc n := by
  intro n
  induction n with
  | zero => intro pc _; rfl
  | succ m ih =>
      intro pc hker
      obtain ⟨k, hk⟩ := hker 0 (Nat.succ_pos m)
      rw [Nat.add_zero] at hk
      unfold rangeTrace planSeg
      rw [computeTrace_append, computeTrace_visitTrace ss _ k hk,
        ih (pc + 1) (fun j hj => by
          have := hker (j + 1) (Nat.succ_lt_succ hj)
          rwa [Nat.add_comm j 1, ← Nat.add_assoc] at this)]
      rfl

/-- Relating `planSeg` over the whole plan to the plan itself. -/
theorem planSeg_full (ss : SessionState) :
    planSeg ss 0 ss.execution_plan.length
      = ss.execution_plan.map NodeExecutionPlan.node_index := by
  suffices h : ∀ (l : List NodeExecutionPlan) (pc : Nat),
      pc + l.length ≤ ss.execution_plan.length →
      (∀ j, j < l.length → planAt ss (pc + j) = l.getD j defaultNEP) →
      planSeg ss pc l.length = l.map NodeExecutionPlan.node_index by
    apply h ss.execution_plan 0 (by omega)
    intro j hj
    unfold planAt
    rw [Nat.zero_add]
  intro l
  induction l with
  | nil => intro pc _ _; rfl
  | cons a t ih =>
      intro pc hle hat
      have h0 := hat 0 (by simp)
      rw [Nat.add_zero] at h0
      simp only [List.length_cons] at hle ⊢
      rw [planSeg, List.map_cons, h0]
      have ha : (a :: t).getD 0 defaultNEP = a := rfl
      rw [ha]
      congr 1
      exact ih (pc + 1) (by omega) (fun j hj => by
        have h2 := hat (j + 1) (by simp only [List.length_cons]; omega)
        have h1 : (a :: t).getD (j + 1) defaultNEP = t.getD j defaultNEP := rfl
        rw [h1] at h2
        rw [show pc + (j + 1) = pc + 1 + j by omega] at h2
        exact h2)

theorem planAt_mem (ss : SessionState) (p : Nat) (hp : p < ss.execution_plan.length) :
    planAt ss p ∈ ss.execution_plan := by
  unfold planAt
  rw [List.getD_eq_getElem ss.execution_plan defaultNEP hp]
  exact List.getElem_mem hp

/-! ### Claim theorems -/

/-- C1: for every plan, a full run (`run_id = DEFAULT_RUN_ID`) in which every
node has an always-succeeding kernel visits every plan entry in
`[0, plan_size)` exactly once, in ascending program-counter order, invoking
each visited node's kernel `Compute` exactly once (the compute-event trace is
exactly the plan's node sequence in plan order), and neither inserts, looks
up, nor removes any run-registry entry (the registry state is returned
untouched, as is the `run_id` out-parameter). -/
theorem C1_full_run_visits_plan_in_order (ss : SessionState) (toExec : Nat → Bool)
    (feeds fetches : List Nat) (g : GraphRuns)
    (hker : ∀ nep ∈ ss.execution_plan, kernelTotalOK ss nep) :
    (Execute ss false false toExec feeds fetches DEFAULT_RUN_ID g).outcome = RunOutcome.ok
    ∧ computeTrace (Execute ss false false toExec feeds fetches DEFAULT_RUN_ID g).events
        = ss.execution_plan.map NodeExecutionPlan.node_index
    ∧ (Execute ss false false toExec feeds fetches DEFAULT_RUN_ID g).reg = g
    ∧ (Execute ss false false toExec feeds fetches DEFAULT_RUN_ID g).run_id = DEFAULT_RUN_ID := by
  have hrange := executeRange_of_ok ss toExec ss.execution_plan.length 0
    (mkFrame ss feeds fetches)
    (fun j hj => hker _ (planAt_mem ss (0 + j) (by omega)))
  have hE : Execute ss false false toExec feeds fetches DEFAULT_RUN_ID g
      = ⟨RunOutcome.ok, DEFAULT_RUN_ID, g,
         (executeRange ss false false toExec (mkFrame ss feeds fetches) 0
           ss.execution_plan.length).2.2⟩ := by
    unfold Execute
    rw [if_pos rfl]
    simp only [hrange.1, isOK_ok, if_true]
  rw [hE]
  refine ⟨rfl, ?_, rfl, rfl⟩
  rw [hrange.2, computeTrace_rangeTrace ss ss.execution_plan.length 0
    (fun j hj => by
      obtain ⟨k, hk, _⟩ := hker _ (planAt_mem ss (0 + j) (by omega))
      exact ⟨k, hk⟩)]
  exact planSeg_full ss

/-- C1 witness: the theorem applied to the concrete 2-node session `ssA`. -/
theorem C1_witness :
    (Execute ssA false false (fun _ => true) [0] [2] DEFAULT_RUN_ID g0).outcome = RunOutcome.ok
    ∧ computeTrace (Execute ssA false false (fun _ => true) [0] [2] DEFAULT_RUN_ID g0).events
        = ssA.execution_plan.map NodeExecutionPlan.node_index
    ∧ (Execute ssA false false (fun _ => true) [0] [2] DEFAULT_RUN_ID g0).reg = g0
    ∧ (Execute ssA false false (fun _ => true) [0] [2] DEFAULT_RUN_ID g0).run_id
        = DEFAULT_RUN_ID :=
  C1_full_run_visits_plan_in_order ssA (fun _ => true) [0] [2] g0
    (fun _ _ => ⟨plainKernel "Add", rfl, fun _ => rfl⟩)

/-- C6 counterexample: the claim asserts the termination status carries a
dedicated "terminated" designation distinct from the category/code used for
kernel compute failures.  On the concrete session `ssFail`, a terminated run
and a kernel-compute-failure run return statuses with the same category
(`ONNXRUNTIME`) and the same code (`FAIL`): the code distinguishes them only
by message text, refuting the claimed distinct designation. -/
theorem C6_counterexample :
    (Execute ssFail true false (fun _ => true) [] [] DEFAULT_RUN_ID g0).outcome
      = RunOutcome.err terminatedStatus
    ∧ (Execute ssFail false false (fun _ => true) [] [] DEFAULT_RUN_ID g0).outcome
      = RunOutcome.err (wrapComputeStatus ssFail 1
          ⟨StatusCategory.ONNXRUNTIME, ErrorCode.FAIL, "boom"⟩)
    ∧ (wrapComputeStatus ssFail 1
        ⟨StatusCategory.ONNXRUNTIME, ErrorCode.FAIL, "boom"⟩).category
      = terminatedStatus.category
    ∧ (wrapComputeStatus ssFail 1
        ⟨StatusCategory.ONNXRUNTIME, ErrorCode.FAIL, "boom"⟩).code
      = terminatedStatus.code := by
  refine ⟨by decide, by decide, rfl, rfl⟩

/-- C6 (amended): if the termination flag is set before a non-empty window
starts, the window executes zero kernels, performs no fence hooks, releases
no value slot (the event trace is empty), leaves the frame untouched, and
returns a failure status — but that status is the generic
`(ONNXRUNTIME, FAIL)` with a terminate message, not a dedicated "terminated"
category distinct from compute failures. -/
theorem C6_terminate_flag_amended (ss : SessionState) (prune : Bool)
    (toExec : Nat → Bool) (frame : ExecutionFrame) (pc m : Nat) :
    executeRange ss true prune toExec frame pc (m + 1)
      = (terminatedStatus, frame, [])
    ∧ terminatedStatus.category = StatusCategory.ONNXRUNTIME
    ∧ terminatedStatus.code = ErrorCode.FAIL
    ∧ terminatedStatus.isOK = false :=
  ⟨rfl, rfl, rfl, rfl⟩

/-- C5: if every node of the window before position `j` succeeds and the
node at position `j` fails (its compute returns the non-success status
`st0` on every frame), then the window returns the failure wrapped with the
failing node's op type and name, the trace is exactly the successful prefix
followed by node `j`'s pre-compute fence pass and its single compute event
(so no later node is visited and node `j`'s free range is not released), and
the resulting frame is exactly the frame at the moment of failure: the
prefix frame with node `j`'s own compute effect applied, nothing rolled
back. -/
theorem C5_compute_failure_aborts (ss : SessionState) (toExec : Nat → Bool) :
    ∀ (j n pc : Nat) (frame : ExecutionFrame) (kj : OpKernel) (st0 : Status),
      j < n →
      (∀ i, i < j → kernelTotalOK ss (planAt ss (pc + i))) →
      ss.getKernel (planAt ss (pc + j)).node_index = some kj →
      (∀ f, (kj.compute f).1 = st0) →
      st0.isOK = false →
      executeRange ss false false toExec frame pc n
        = (wrapComputeStatus ss (planAt ss (pc + j)).node_index st0,
           (kj.compute (executeRange ss false false toExec frame pc j).2.1).2,
           rangeTrace ss pc j
             ++ (if ss.nodeHasFence (planAt ss (pc + j)).node_index
                 then beforeFenceEvents kj (planAt ss (pc + j)).node_index else [])
             ++ [Event.compute (planAt ss (pc + j)).node_index]) := by
  intro j
  induction j with
  | zero =>
      intro n pc frame kj st0 hj _ hkj hfail hbad
      obtain ⟨m, rfl⟩ : ∃ m, n = m + 1 := ⟨n - 1, by omega⟩
      rw [Nat.add_zero] at hkj
      have hfb : ((kj.compute frame).1).isOK = false := by rw [hfail frame]; exact hbad
      have hstep := executeNode_of_fail ss (planAt ss pc) frame kj hkj hfb
      rw [executeRange_succ, hstep]
      simp only [isOK_wrap, hfail frame, hbad, Bool.false_eq_true, if_false]
      rfl
  | succ i ih =>
      intro n pc frame kj st0 hj hpre hkj hfail hbad
      obtain ⟨m, rfl⟩ : ∃ m, n = m + 1 := ⟨n - 1, by omega⟩
      obtain ⟨k0, hk0, hok0⟩ := hpre 0 (Nat.succ_pos i)
      rw [Nat.add_zero] at hk0
      have hstep := executeNode_of_ok ss (planAt ss pc) frame k0 hk0 (hok0 frame)
      have hidx : ∀ r : Nat, pc + 1 + r = pc + (r + 1) := by omega
      have hrec := ih m (pc + 1)
        (releaseNodeMLValues ss (planAt ss pc) (k0.compute frame).2).1 kj st0
        (by omega)
        (fun r hr => by rw [hidx r]; exact hpre (r + 1) (Nat.succ_lt_succ hr))
        (by rw [hidx i]; exact hkj) hfail hbad
      have hpfx := executeRange_succ ss toExec frame pc i
      rw [executeRange_succ, hstep]
      simp only [isOK_ok, if_true]
      rw [hrec, hpfx, hstep]
      simp only [isOK_ok, if_true]
      rw [hidx i]
      have htr : rangeTrace ss pc (i + 1)
          = visitTrace ss (planAt ss pc) ++ rangeTrace ss (pc + 1) i := rfl
      rw [htr]
      simp [List.append_assoc]

/-- C5 witness: the theorem applied to `ssFail` (node at position 1 fails)
with window `[0, 2)`. -/
theorem C5_witness :
    executeRange ssFail false false (fun _ => true) (mkFrame ssFail [] []) 0 2
      = (wrapComputeStatus ssFail (planAt ssFail (0 + 1)).node_index
           ⟨StatusCategory.ONNXRUNTIME, ErrorCode.FAIL, "boom"⟩,
         ((failingKernel "Mul").compute
           (executeRange ssFail false false (fun _ => true) (mkFrame ssFail [] []) 0 1).2.1).2,
         rangeTrace ssFail 0 1
           ++ (if ssFail.nodeHasFence (planAt ssFail (0 + 1)).node_index
               then beforeFenceEvents (failingKernel "Mul") (planAt ssFail (0 + 1)).node_index
               else [])
           ++ [Event.compute (planAt ssFail (0 + 1)).node_index]) :=
  C5_compute_failure_aborts ssFail (fun _ => true) 1 2 0 (mkFrame ssFail [] [])
    (failingKernel "Mul") ⟨StatusCategory.ONNXRUNTIME, ErrorCode.FAIL, "boom"⟩
    (by decide)
    (fun i hi => by
      interval_cases i
      exact ⟨plainKernel "Add", rfl, fun _ => rfl⟩)
    rfl (fun _ => rfl) rfl

/-! ### Exactly-once counting machinery for fence hooks -/

theorem count_eq_zero_of_kind {l : List Event} {a : Event} (K : Nat)
    (hl : ∀ e ∈ l, e.kind = K) (ha : a.kind ≠ K) : l.count a = 0 :=
  List.count_eq_zero.mpr fun hmem => ha (hl a hmem)

theorem count_block_list (p : Nat → Bool) (g : Nat → Event)
    (hg : ∀ a b, g a = g b → a = b) (i : Nat) :
    ∀ (l : List Nat), l.Nodup →
      (l.filterMap fun x => if p x then some (g x) else none).count (g i)
        = if i ∈ l ∧ p i = true then 1 else 0 := by
  intro l
  induction l with
  | nil => intro _; simp
  | cons a t ih =>
      intro hnd
      have hndt := (List.nodup_cons.mp hnd).2
      have hat := (List.nodup_cons.mp hnd).1
      rw [List.filterMap_cons]
      by_cases hpa : p a
      · rw [if_pos hpa, List.count_cons, ih hndt]
        by_cases hia : i = a
        · subst hia
          simp [hat, hpa]
        · have hba : (g a == g i) = false :=
            beq_eq_false_iff_ne.mpr fun hc => hia (hg i a hc.symm)
          simp [hba, List.mem_cons, hia]
      · rw [if_neg hpa, ih hndt]
        by_cases hia : i = a
        · subst hia
          simp [hat, hpa]
        · simp [List.mem_cons, hia]

theorem count_block_range (m : Nat) (p : Nat → Bool) (g : Nat → Event)
    (hg : ∀ a b, g a = g b → a = b) (i : Nat) (hi : i < m) (hp : p i = true) :
    ((List.range m).filterMap fun x => if p x then some (g x) else none).count (g i) = 1 := by
  rw [count_block_list p g hg i (List.range m) (List.nodup_range m),
    if_pos ⟨List.mem_range.mpr hi, hp⟩]

theorem kinds_beforeInput_block (k : OpKernel) (n : Nat) :
    ∀ e ∈ ((List.range k.numInputs).filterMap fun i =>
      if k.inputFence i then some (Event.beforeInput n i (inputProvider k i) k.queueId)
      else none), e.kind = 0 :=
  kind_of_mem_block _ k.inputFence
    (fun i => Event.beforeInput n i (inputProvider k i) k.queueId) 0 (fun _ => rfl)

theorem kinds_beforeImplicit_block (k : OpKernel) (n : Nat) :
    ∀ e ∈ ((List.range k.numImplicitInputs).filterMap fun i =>
      if k.implicitInputFence i then
        some (Event.beforeImplicitInput n i (inputProvider k i) k.queueId)
      else none), e.kind = 1 :=
  kind_of_mem_block _ k.implicitInputFence
    (fun i => Event.beforeImplicitInput n i (inputProvider k i) k.queueId) 1 (fun _ => rfl)

theorem kinds_beforeOutput_block (k : OpKernel) (n : Nat) :
    ∀ e ∈ ((List.range k.numOutputs).filterMap fun i =>
      if k.outputFence i then some (Event.beforeOutput n i k.provider k.queueId)
      else none), e.kind = 2 :=
  kind_of_mem_block _ k.outputFence
    (fun i => Event.beforeOutput n i k.provider k.queueId) 2 (fun _ => rfl)

theorem kinds_afterInput_block (k : OpKernel) (n : Nat) :
    ∀ e ∈ ((List.range k.numInputs).filterMap fun i =>
      if k.inputFence i then some (Event.afterInput n i k.queueId) else none),
      e.kind = 4 :=
  kind_of_mem_block _ k.inputFence (fun i => Event.afterInput n i k.queueId) 4 (fun _ => rfl)

theorem kinds_afterImplicit_block (k : OpKernel) (n : Nat) :
    ∀ e ∈ ((List.range k.numImplicitInputs).filterMap fun i =>
      if k.implicitInputFence i then some (Event.afterImplicitInput n i k.queueId)
      else none), e.kind = 5 :=
  kind_of_mem_block _ k.implicitInputFence
    (fun i => Event.afterImplicitInput n i k.queueId) 5 (fun _ => rfl)

theorem kinds_afterOutput_block (k : OpKernel) (n : Nat) :
    ∀ e ∈ ((List.range k.numOutputs).filterMap fun i =>
      if k.outputFence i then some (Event.afterOutput n i k.queueId) else none),
      e.kind = 6 :=
  kind_of_mem_block _ k.outputFence (fun i => Event.afterOutput n i k.queueId) 6 (fun _ => rfl)

theorem kinds_release_map (ss : SessionState) (nep : NodeExecutionPlan) :
    ∀ e ∈ (freePositions nep).map (fun i => Event.release (ss.to_be_freed.getD i 0)),
      e.kind = 7 := by
  intro e he
  rw [List.mem_map] at he
  obtain ⟨i, _, hi⟩ := he
  rw [← hi]
  rfl

/-- Count of a fence-hook event over the full before-pass of one node. -/
theorem count_beforeFence_of_kind (k : OpKernel) (n : Nat) (a : Event)
    (h0 : a.kind ≠ 0) (h1 : a.kind ≠ 1) (h2 : a.kind ≠ 2) :
    (beforeFenceEvents k n).count a = 0 := by
  unfold beforeFenceEvents
  rw [List.count_append, List.count_append,
    count_eq_zero_of_kind 0 (kinds_beforeInput_block k n) h0,
    count_eq_zero_of_kind 1 (kinds_beforeImplicit_block k n) h1,
    count_eq_zero_of_kind 2 (kinds_beforeOutput_block k n) h2]

theorem count_afterFence_of_kind (k : OpKernel) (n : Nat) (a : Event)
    (h4 : a.kind ≠ 4) (h5 : a.kind ≠ 5) (h6 : a.kind ≠ 6) :
    (afterFenceEvents k n).count a = 0 := by
  unfold afterFenceEvents
  rw [List.count_append, List.count_append,
    count_eq_zero_of_kind 4 (kinds_afterInput_block k n) h4,
    count_eq_zero_of_kind 5 (kinds_afterImplicit_block k n) h5,
    count_eq_zero_of_kind 6 (kinds_afterOutput_block k n) h6]

theorem count_beforeFence_input (k : OpKernel) (n i : Nat)
    (hi : i < k.numInputs) (hf : k.inputFence i = true) :
    (beforeFenceEvents k n).count (Event.beforeInput n i (inputProvider k i) k.queueId)
      = 1 := by
  unfold beforeFenceEvents
  rw [List.count_append, List.count_append,
    count_block_range k.numInputs k.inputFence
      (fun j => Event.beforeInput n j (inputProvider k j) k.queueId)
      (fun a b h => by injection h with e1 e2 e3 e4) i hi hf,
    count_eq_zero_of_kind 1 (kinds_beforeImplicit_block k n) (by intro h; cases h),
    count_eq_zero_of_kind 2 (kinds_beforeOutput_block k n) (by intro h; cases h)]

theorem count_beforeFence_implicit (k : OpKernel) (n i : Nat)
    (hi : i < k.numImplicitInputs) (hf : k.implicitInputFence i = true) :
    (beforeFenceEvents k n).count
      (Event.beforeImplicitInput n i (inputProvider k i) k.queueId) = 1 := by
  unfold beforeFenceEvents
  rw [List.count_append, List.count_append,
    count_eq_zero_of_kind 0 (kinds_beforeInput_block k n) (by intro h; cases h),
    count_block_range k.numImplicitInputs k.implicitInputFence
      (fun j => Event.beforeImplicitInput n j (inputProvider k j) k.queueId)
      (fun a b h => by injection h with e1 e2 e3 e4) i hi hf,
    count_eq_zero_of_kind 2 (kinds_beforeOutput_block k n) (by intro h; cases h)]

theorem count_beforeFence_output (k : OpKernel) (n i : Nat)
    (hi : i < k.numOutputs) (hf : k.outputFence i = true) :
    (beforeFenceEvents k n).count (Event.beforeOutput n i k.provider k.queueId) = 1 := by
  unfold beforeFenceEvents
  rw [List.count_append, List.count_append,
    count_eq_zero_of_kind 0 (kinds_beforeInput_block k n) (by intro h; cases h),
    count_eq_zero_of_kind 1 (kinds_beforeImplicit_block k n) (by intro h; cases h),
    count_block_range k.numOutputs k.outputFence
      (fun j => Event.beforeOutput n j k.provider k.queueId)
      (fun a b h => by injection h with e1 e2 e3 e4) i hi hf]

theorem count_afterFence_input (k : OpKernel) (n i : Nat)
    (hi : i < k.numInputs) (hf : k.inputFence i = true) :
    (afterFenceEvents k n).count (Event.afterInput n i k.queueId) = 1 := by
  unfold afterFenceEvents
  rw [List.count_append, List.count_append,
    count_block_range k.numInputs k.inputFence
      (fun j => Event.afterInput n j k.queueId)
      (fun a b h => by injection h with e1 e2 e3) i hi hf,
    count_eq_zero_of_kind 5 (kinds_afterImplicit_block k n) (by intro h; cases h),
    count_eq_zero_of_kind 6 (kinds_afterOutput_block k n) (by intro h; cases h)]

theorem count_afterFence_implicit (k : OpKernel) (n i : Nat)
    (hi : i < k.numImplicitInputs) (hf : k.implicitInputFence i = true) :
    (afterFenceEvents k n).count (Event.afterImplicitInput n i k.queueId) = 1 := by
  unfold afterFenceEvents
  rw [List.count_append, List.count_append,
    count_eq_zero_of_kind 4 (kinds_afterInput_block k n) (by intro h; cases h),
    count_block_range k.numImplicitInputs k.implicitInputFence
      (fun j => Event.afterImplicitInput n j k.queueId)
      (fun a b h => by injection h with e1 e2 e3) i hi hf,
    count_eq_zero_of_kind 6 (kinds_afterOutput_block k n) (by intro h; cases h)]

theorem count_afterFence_output (k : OpKernel) (n i : Nat)
    (hi : i < k.numOutputs) (hf : k.outputFence i = true) :
    (afterFenceEvents k n).count (Event.afterOutput n i k.queueId) = 1 := by
  unfold afterFenceEvents
  rw [List.count_append, List.count_append,
    count_eq_zero_of_kind 4 (kinds_afterInput_block k n) (by intro h; cases h),
    count_eq_zero_of_kind 5 (kinds_afterImplicit_block k n) (by intro h; cases h),
    count_block_range k.numOutputs k.outputFence
      (fun j => Event.afterOutput n j k.queueId)
      (fun a b h => by injection h with e1 e2 e3) i hi hf]

/-- C7: for a visited node whose plan entry has a fence and whose compute
succeeds, the visit's event trace is exactly: `BeforeUsingAsInput` for the
fenced non-implicit inputs (in index order), then for the fenced implicit
inputs, then `BeforeUsingAsOutput` for the fenced outputs, then the single
`Compute`, then `AfterUsedAsInput` (non-implicit, then implicit), then
`AfterUsedAsOutput`, then the value releases; each hook fires exactly once
per fenced slot per visit; and a before-input hook carries the CPU
execution-provider identity in place of the kernel's provider exactly when
the kernel declares that input's memory type as CPU-input. -/
theorem C7_fence_hook_order (ss : SessionState) (nep : NodeExecutionPlan)
    (frame : ExecutionFrame) (k : OpKernel)
    (hk : ss.getKernel nep.node_index = some k)
    (hf : ss.nodeHasFence nep.node_index = true)
    (hok : ((k.compute frame).1).isOK = true) :
    (executeNode ss nep frame).2.2
      = ((List.range k.numInputs).filterMap fun i =>
          if k.inputFence i then
            some (Event.beforeInput nep.node_index i
              (if k.inputMemoryType i = MemType.cpuInput then kCpuExecutionProvider
               else k.provider) k.queueId)
          else none)
        ++ ((List.range k.numImplicitInputs).filterMap fun i =>
          if k.implicitInputFence i then
            some (Event.beforeImplicitInput nep.node_index i
              (if k.inputMemoryType i = MemType.cpuInput then kCpuExecutionProvider
               else k.provider) k.queueId)
          else none)
        ++ ((List.range k.numOutputs).filterMap fun i =>
          if k.outputFence i then
            some (Event.beforeOutput nep.node_index i k.provider k.queueId)
          else none)
        ++ [Event.compute nep.node_index]
        ++ ((List.range k.numInputs).filterMap fun i =>
          if k.inputFence i then some (Event.afterInput nep.node_index i k.queueId)
          else none)
        ++ ((List.range k.numImplicitInputs).filterMap fun i =>
          if k.implicitInputFence i then
            some (Event.afterImplicitInput nep.node_index i k.queueId)
          else none)
        ++ ((List.range k.numOutputs).filterMap fun i =>
          if k.outputFence i then some (Event.afterOutput nep.node_index i k.queueId)
          else none)
        ++ (freePositions nep).map (fun i => Event.release (ss.to_be_freed.getD i 0))
    ∧ (∀ i, i < k.numInputs → k.inputFence i = true →
        (executeNode ss nep frame).2.2.count
          (Event.beforeInput nep.node_index i (inputProvider k i) k.queueId) = 1
        ∧ (executeNode ss nep frame).2.2.count
            (Event.afterInput nep.node_index i k.queueId) = 1)
    ∧ (∀ i, i < k.numImplicitInputs → k.implicitInputFence i = true →
        (executeNode ss nep frame).2.2.count
          (Event.beforeImplicitInput nep.node_index i (inputProvider k i) k.queueId) = 1
        ∧ (executeNode ss nep frame).2.2.count
            (Event.afterImplicitInput nep.node_index i k.queueId) = 1)
    ∧ (∀ i, i < k.numOutputs → k.outputFence i = true →
        (executeNode ss nep frame).2.2.count
          (Event.beforeOutput nep.node_index i k.provider k.queueId) = 1
        ∧ (executeNode ss nep frame).2.2.count
            (Event.afterOutput nep.node_index i k.queueId) = 1)
    ∧ (executeNode ss nep frame).2.2.count (Event.compute nep.node_index) = 1 := by
  have htr : (executeNode ss nep frame).2.2
      = beforeFenceEvents k nep.node_index
        ++ [Event.compute nep.node_index]
        ++ afterFenceEvents k nep.node_index
        ++ (freePositions nep).map (fun i => Event.release (ss.to_be_freed.getD i 0)) := by
    rw [executeNode_of_ok ss nep frame k hk hok]
    show visitTrace ss nep = _
    unfold visitTrace
    rw [hk]
    simp only [hf, if_true]
  have hsing : ∀ e ∈ [Event.compute nep.node_index], e.kind = 3 := by
    intro e he
    rw [List.mem_singleton] at he
    subst he
    rfl
  have hrel := kinds_release_map ss nep
  refine ⟨?_, ?_, ?_, ?_, ?_⟩
  · rw [htr]
    unfold beforeFenceEvents afterFenceEvents inputProvider
    simp [List.append_assoc]
  · intro i hi hfi
    constructor
    · rw [htr, List.count_append, List.count_append, List.count_append,
        count_beforeFence_input k nep.node_index i hi hfi,
        count_eq_zero_of_kind 3 hsing (by intro h; cases h),
        count_afterFence_of_kind k nep.node_index _ (by intro h; cases h)
          (by intro h; cases h) (by intro h; cases h),
        count_eq_zero_of_kind 7 hrel (by intro h; cases h)]
    · rw [htr, List.count_append, List.count_append, List.count_append,
        count_beforeFence_of_kind k nep.node_index _ (by intro h; cases h)
          (by intro h; cases h) (by intro h; cases h),
        count_eq_zero_of_kind 3 hsing (by intro h; cases h),
        count_afterFence_input k nep.node_index i hi hfi,
        count_eq_zero_of_kind 7 hrel (by intro h; cases h)]
  · intro i hi hfi
    constructor
    · rw [htr, List.count_append, List.count_append, List.count_append,
        count_beforeFence_implicit k nep.node_index i hi hfi,
        count_eq_zero_of_kind 3 hsing (by intro h; cases h),
        count_afterFence_of_kind k nep.node_index _ (by intro h; cases h)
          (by intro h; cases h) (by intro h; cases h),
        count_eq_zero_of_kind 7 hrel (by intro h; cases h)]
    · rw [htr, List.count_append, List.count_append, List.count_append,
        count_beforeFence_of_kind k nep.node_index _ (by intro h; cases h)
          (by intro h; cases h) (by intro h; cases h),
        count_eq_zero_of_kind 3 hsing (by intro h; cases h),
        count_afterFence_implicit k nep.node_index i hi hfi,
        count_eq_zero_of_kind 7 hrel (by intro h; cases h)]
  · intro i hi hfi
    constructor
    · rw [htr, List.count_append, List.count_append, List.count_append,
        count_beforeFence_output k nep.node_index i hi hfi,
        count_eq_zero_of_kind 3 hsing (by intro h; cases h),
        count_afterFence_of_kind k nep.node_index _ (by intro h; cases h)
          (by intro h; cases h) (by intro h; cases h),
        count_eq_zero_of_kind 7 hrel (by intro h; cases h)]
    · rw [htr, List.count_append, List.count_append, List.count_append,
        count_beforeFence_of_kind k nep.node_index _ (by intro h; cases h)
          (by intro h; cases h) (by intro h; cases h),
        count_eq_zero_of_kind 3 hsing (by intro h; cases h),
        count_afterFence_output k nep.node_index i hi hfi,
        count_eq_zero_of_kind 7 hrel (by intro h; cases h)]
  · rw [htr, List.count_append, List.count_append, List.count_append,
      count_beforeFence_of_kind k nep.node_index _ (by intro h; cases h)
        (by intro h; cases h) (by intro h; cases h),
      count_afterFence_of_kind k nep.node_index _ (by intro h; cases h)
        (by intro h; cases h) (by intro h; cases h),
      count_eq_zero_of_kind 7 hrel (by intro h; cases h)]
    simp

/-- C7 witness: the theorem applied to the fully fenced `richKernel` node of
`ssRich`; input 1 is CPU-declared, so its before-hook carries the CPU
provider identity. -/
theorem C7_witness :
    (executeNode ssRich ⟨0, 0, 0⟩ (mkFrame ssRich [] [])).2.2.count
        (Event.beforeInput 0 1 (inputProvider richKernel 1) richKernel.queueId) = 1
    ∧ (executeNode ssRich ⟨0, 0, 0⟩ (mkFrame ssRich [] [])).2.2.count
        (Event.afterOutput 0 0 richKernel.queueId) = 1
    ∧ (executeNode ssRich ⟨0, 0, 0⟩ (mkFrame ssRich [] [])).2.2.count
        (Event.compute 0) = 1
    ∧ inputProvider richKernel 1 = kCpuExecutionProvider :=
  ⟨((C7_fence_hook_order ssRich ⟨0, 0, 0⟩ (mkFrame ssRich [] []) richKernel rfl rfl
      rfl).2.1 1 (by decide) rfl).1,
   ((C7_fence_hook_order ssRich ⟨0, 0, 0⟩ (mkFrame ssRich [] []) richKernel rfl rfl
      rfl).2.2.2.1 0 (by decide) rfl).2,
   (C7_fence_hook_order ssRich ⟨0, 0, 0⟩ (mkFrame ssRich [] []) richKernel rfl rfl
      rfl).2.2.2.2,
   rfl⟩

/-! ### Value-release bookkeeping -/

theorem rangeTrace_append (ss : SessionState) :
    ∀ (a b pc : Nat),
      rangeTrace ss pc (a + b) = rangeTrace ss pc a ++ rangeTrace ss (pc + a) b := by
  intro a
  induction a with
  | zero => intro b pc; simp [rangeTrace]
  | succ m ih =>
      intro b pc
      have h1 : m + 1 + b = (m + b) + 1 := by omega
      rw [h1]
      show visitTrace ss (planAt ss pc) ++ rangeTrace ss (pc + 1) (m + b) = _
      rw [ih b (pc + 1)]
      have h2 : pc + 1 + m = pc + (m + 1) := by omega
      rw [h2, ← List.append_assoc]
      rfl

theorem planSeg_append (ss : SessionState) :
    ∀ (a b pc : Nat),
      planSeg ss pc (a + b) = planSeg ss pc a ++ planSeg ss (pc + a) b := by
  intro a
  induction a with
  | zero => intro b pc; simp [planSeg]
  | succ m ih =>
      intro b pc
      have h1 : m + 1 + b = (m + b) + 1 := by omega
      rw [h1]
      show (planAt ss pc).node_index :: planSeg ss (pc + 1) (m + b) = _
      rw [ih b (pc + 1)]
      have h2 : pc + 1 + m = pc + (m + 1) := by omega
      rw [h2]
      rfl

theorem releaseTrace_release_map (f : Nat → Nat) (l : List Nat) :
    releaseTrace (l.map fun i => Event.release (f i)) = l.map f := by
  unfold releaseTrace
  rw [List.filterMap_map]
  exact congrFun (List.filterMap_eq_map f) l

theorem releaseTrace_visitTrace (ss : SessionState) (nep : NodeExecutionPlan)
    (k : OpKernel) (hk : ss.getKernel nep.node_index = some k) :
    releaseTrace (visitTrace ss nep)
      = (freePositions nep).map (fun i => ss.to_be_freed.getD i 0) := by
  unfold visitTrace
  rw [hk]
  show releaseTrace (_ ++ _ ++ _ ++ _) = _
  rw [releaseTrace_append, releaseTrace_append, releaseTrace_append]
  rw [releaseTrace_release_map]
  have hb : releaseTrace (if ss.nodeHasFence nep.node_index then
      beforeFenceEvents k nep.node_index else []) = [] := by
    by_cases hf : ss.nodeHasFence nep.node_index
    · rw [if_pos hf]
      exact releaseTrace_eq_nil fun e he => by
        rcases kind_of_mem_beforeFence k nep.node_index e he with h | h | h <;> omega
    · rw [if_neg hf]; rfl
  have ha : releaseTrace (if ss.nodeHasFence nep.node_index then
      afterFenceEvents k nep.node_index else []) = [] := by
    by_cases hf : ss.nodeHasFence nep.node_index
    · rw [if_pos hf]
      exact releaseTrace_eq_nil fun e he => by
        rcases kind_of_mem_afterFence k nep.node_index e he with h | h | h <;> omega
    · rw [if_neg hf]; rfl
  rw [hb, ha]
  rfl

theorem releaseTrace_rangeTrace_full (ss : SessionState)
    (hker : ∀ nep ∈ ss.execution_plan, ∃ k, ss.getKernel nep.node_index = some k) :
    releaseTrace (rangeTrace ss 0 ss.execution_plan.length)
      = (planFreePositions ss.execution_plan).map (fun i => ss.to_be_freed.getD i 0) := by
  suffices h : ∀ (l : List NodeExecutionPlan) (pc : Nat),
      pc + l.length ≤ ss.execution_plan.length →
      (∀ j, j < l.length → planAt ss (pc + j) = l.getD j defaultNEP) →
      releaseTrace (rangeTrace ss pc l.length)
        = (planFreePositions l).map (fun i => ss.to_be_freed.getD i 0) by
    apply h ss.execution_plan 0 (by omega)
    intro j hj
    unfold planAt
    rw [Nat.zero_add]
  intro l
  induction l with
  | nil => intro pc _ _; rfl
  | cons a t ih =>
      intro pc hle hat
      have h0 := hat 0 (by simp)
      rw [Nat.add_zero] at h0
      have ha : (a :: t).getD 0 defaultNEP = a := rfl
      rw [ha] at h0
      simp only [List.length_cons] at hle ⊢
      have hpm : planAt ss pc ∈ ss.execution_plan := planAt_mem ss pc (by omega)
      obtain ⟨k, hk⟩ := hker _ hpm
      rw [h0] at hk
      show releaseTrace (visitTrace ss (planAt ss pc) ++ rangeTrace ss (pc + 1) t.length) = _
      rw [releaseTrace_append, h0, releaseTrace_visitTrace ss a k hk]
      show _ = (freePositions a ++ planFreePositions t).map _
      rw [List.map_append]
      congr 1
      exact ih (pc + 1) (by omega) (fun j hj => by
        have h2 := hat (j + 1) (by simp only [List.length_cons]; omega)
        have h1 : (a :: t).getD (j + 1) defaultNEP = t.getD j defaultNEP := rfl
        rw [h1] at h2
        rw [show pc + (j + 1) = pc + 1 + j by omega] at h2
        exact h2)

theorem mem_planFreePositions {i : Nat} :
    ∀ {l : List NodeExecutionPlan},
      i ∈ planFreePositions l ↔ ∃ nep ∈ l, i ∈ freePositions nep := by
  intro l
  induction l with
  | nil => simp [planFreePositions]
  | cons a t ih =>
      show i ∈ freePositions a ++ planFreePositions t ↔ _
      rw [List.mem_append, ih]
      constructor
      · rintro (h | ⟨nep, hm, hi⟩)
        · exact ⟨a, List.mem_cons_self a t, h⟩
        · exact ⟨nep, List.mem_cons_of_mem a hm, hi⟩
      · rintro ⟨nep, hm, hi⟩
        rcases List.mem_cons.mp hm with h | h
        · subst h; exact Or.inl hi
        · exact Or.inr ⟨nep, h, hi⟩

theorem freePositions_nodup (nep : NodeExecutionPlan) : (freePositions nep).Nodup :=
  List.nodup_range' _ _

theorem planFreePositions_nodup :
    ∀ (l : List NodeExecutionPlan),
      l.Pairwise (fun x y => ∀ i ∈ freePositions x, i ∉ freePositions y) →
      (planFreePositions l).Nodup := by
  intro l
  induction l with
  | nil => intro _; exact List.nodup_nil
  | cons a t ih =>
      intro hp
      rcases List.pairwise_cons.mp hp with ⟨hhead, htail⟩
      show (freePositions a ++ planFreePositions t).Nodup
      rw [List.nodup_append]
      refine ⟨freePositions_nodup a, ih htail, ?_⟩
      intro x hx hx'
      rcases mem_planFreePositions.mp hx' with ⟨nep, hm, hi⟩
      exact hhead nep hm x hx hi

/-- C8: in a successful full run, the executor releases exactly the value
slots listed at positions `free_from_index .. free_to_index` (inclusive) of
the shared `to_be_freed` list for each node, in plan order and in ascending
position order within each node (the release subtrace is exactly the
concatenation of the per-node position ranges, mapped through `to_be_freed`);
if the plan's free ranges are pairwise disjoint, each listed position is
released exactly once; and each node's releases occur strictly after that
node's compute event (the trace decomposes around the node's compute, its
post-compute fence pass, then its releases). -/
theorem C8_release_after_compute (ss : SessionState) (toExec : Nat → Bool)
    (feeds fetches : List Nat) (g : GraphRuns)
    (hker : ∀ nep ∈ ss.execution_plan, kernelTotalOK ss nep) :
    releaseTrace (Execute ss false false toExec feeds fetches DEFAULT_RUN_ID g).events
      = (planFreePositions ss.execution_plan).map (fun i => ss.to_be_freed.getD i 0)
    ∧ (ss.execution_plan.Pairwise
        (fun x y => ∀ i ∈ freePositions x, i ∉ freePositions y) →
       (planFreePositions ss.execution_plan).Nodup)
    ∧ ∀ j, j < ss.execution_plan.length →
        ∃ k pre post, ss.getKernel (planAt ss j).node_index = some k ∧
          (Execute ss false false toExec feeds fetches DEFAULT_RUN_ID g).events
            = pre ++ [Event.compute (planAt ss j).node_index]
              ++ (if ss.nodeHasFence (planAt ss j).node_index
                  then afterFenceEvents k (planAt ss j).node_index else [])
              ++ (freePositions (planAt ss j)).map
                  (fun i => Event.release (ss.to_be_freed.getD i 0))
              ++ post := by
  have hrange := executeRange_of_ok ss toExec ss.execution_plan.length 0
    (mkFrame ss feeds fetches)
    (fun j hj => hker _ (planAt_mem ss (0 + j) (by omega)))
  have hev : (Execute ss false false toExec feeds fetches DEFAULT_RUN_ID g).events
      = rangeTrace ss 0 ss.execution_plan.length := by
    unfold Execute
    rw [if_pos rfl]
    simp only [hrange.1, isOK_ok, if_true]
    exact hrange.2
  refine ⟨?_, planFreePositions_nodup ss.execution_plan, ?_⟩
  · rw [hev]
    exact releaseTrace_rangeTrace_full ss
      (fun nep hm => ⟨(hker nep hm).choose, (hker nep hm).choose_spec.1⟩)
  · intro j hj
    obtain ⟨k, hk, _⟩ := hker _ (planAt_mem ss j hj)
    refine ⟨k,
      rangeTrace ss 0 j
        ++ (if ss.nodeHasFence (planAt ss j).node_index
            then beforeFenceEvents k (planAt ss j).node_index else []),
      rangeTrace ss (j + 1) (ss.execution_plan.length - j - 1), hk, ?_⟩
    rw [hev]
    have h1 : rangeTrace ss 0 ss.execution_plan.length
        = rangeTrace ss 0 j
          ++ (visitTrace ss (planAt ss j)
              ++ rangeTrace ss (j + 1) (ss.execution_plan.length - j - 1)) := by
      rw [show ss.execution_plan.length
            = j + (1 + (ss.execution_plan.length - j - 1)) from by omega,
        rangeTrace_append ss j (1 + (ss.execution_plan.length - j - 1)) 0,
        rangeTrace_append ss 1 (ss.execution_plan.length - j - 1) (0 + j)]
      simp only [Nat.zero_add]
      have hone : rangeTrace ss j 1 = visitTrace ss (planAt ss j) ++ [] := rfl
      rw [hone, List.append_nil]
      have harg : j + (1 + (ss.execution_plan.length - j - 1)) - j - 1
          = ss.execution_plan.length - j - 1 := by omega
      rw [harg]
    rw [h1]
    unfold visitTrace
    rw [hk]
    simp [List.append_assoc]

/-- C8 witness: the theorem applied to `ssA`, whose two nodes free the
value slots at `to_be_freed` positions 0 and 1 respectively. -/
theorem C8_witness :
    releaseTrace (Execute ssA false false (fun _ => true) [0] [2] DEFAULT_RUN_ID g0).events
      = (planFreePositions ssA.execution_plan).map (fun i => ssA.to_be_freed.getD i 0)
    ∧ (ssA.execution_plan.Pairwise
        (fun x y => ∀ i ∈ freePositions x, i ∉ freePositions y) →
       (planFreePositions ssA.execution_plan).Nodup)
    ∧ ∀ j, j < ssA.execution_plan.length →
        ∃ k pre post, ssA.getKernel (planAt ssA j).node_index = some k ∧
          (Execute ssA false false (fun _ => true) [0] [2] DEFAULT_RUN_ID g0).events
            = pre ++ [Event.compute (planAt ssA j).node_index]
              ++ (if ssA.nodeHasFence (planAt ssA j).node_index
                  then afterFenceEvents k (planAt ssA j).node_index else [])
              ++ (freePositions (planAt ssA j)).map
                  (fun i => Event.release (ssA.to_be_freed.getD i 0))
              ++ post :=
  C8_release_after_compute ssA (fun _ => true) [0] [2] g0
    (fun _ _ => ⟨plainKernel "Add", rfl, fun _ => rfl⟩)

/-! ### Pruning: a skipped node contributes nothing -/

theorem pred_of_mem_block {α : Type} (l : List α) (p : α → Bool) (g : α → Event)
    (P : Event → Prop) (hg : ∀ a, P (g a)) :
    ∀ e ∈ l.filterMap (fun a => if p a then some (g a) else none), P e := by
  intro e he
  rw [List.mem_filterMap] at he
  obtain ⟨a, _, ha⟩ := he
  by_cases h : p a
  · rw [if_pos h] at ha
    cases ha
    exact hg a
  · rw [if_neg h] at ha
    cases ha

theorem node_of_mem_beforeFence (k : OpKernel) (n : Nat) :
    ∀ e ∈ beforeFenceEvents k n, eventNode e = some n := by
  intro e he
  unfold beforeFenceEvents at he
  rcases List.mem_append.1 he with h | h
  · rcases List.mem_append.1 h with h' | h'
    · exact pred_of_mem_block _ k.inputFence
        (fun i => Event.beforeInput n i (inputProvider k i) k.queueId)
        (fun e => eventNode e = some n) (fun _ => rfl) e h'
    · exact pred_of_mem_block _ k.implicitInputFence
        (fun i => Event.beforeImplicitInput n i (inputProvider k i) k.queueId)
        (fun e => eventNode e = some n) (fun _ => rfl) e h'
  · exact pred_of_mem_block _ k.outputFence
      (fun i => Event.beforeOutput n i k.provider k.queueId)
      (fun e => eventNode e = some n) (fun _ => rfl) e h

theorem node_of_mem_afterFence (k : OpKernel) (n : Nat) :
    ∀ e ∈ afterFenceEvents k n, eventNode e = some n := by
  intro e he
  unfold afterFenceEvents at he
  rcases List.mem_append.1 he with h | h
  · rcases List.mem_append.1 h with h' | h'
    · exact pred_of_mem_block _ k.inputFence
        (fun i => Event.afterInput n i k.queueId)
        (fun e => eventNode e = some n) (fun _ => rfl) e h'
    · exact pred_of_mem_block _ k.implicitInputFence
        (fun i => Event.afterImplicitInput n i k.queueId)
        (fun e => eventNode e = some n) (fun _ => rfl) e h'
  · exact pred_of_mem_block _ k.outputFence
      (fun i => Event.afterOutput n i k.queueId)
      (fun e => eventNode e = some n) (fun _ => rfl) e h

/-- Every event of one node visit either belongs to that node or is one of
the releases named by the node's free range. -/
theorem executeNode_events_shape (ss : SessionState) (nep : NodeExecutionPlan)
    (frame : ExecutionFrame) :
    ∀ e ∈ (executeNode ss nep frame).2.2,
      eventNode e = some nep.node_index
      ∨ ∃ i ∈ freePositions nep, e = Event.release (ss.to_be_freed.getD i 0) := by
  intro e he
  unfold executeNode at he
  cases hk : ss.getKernel nep.node_index with
  | none => rw [hk] at he; cases he
  | some k =>
      rw [hk] at he
      simp only at he
      by_cases hok : ((k.compute frame).1).isOK
      · rw [if_pos hok] at he
        have hfence : ∀ e' ∈ (if ss.nodeHasFence nep.node_index then
            beforeFenceEvents k nep.node_index else []),
            eventNode e' = some nep.node_index := by
          intro e' he'
          by_cases hf : ss.nodeHasFence nep.node_index
          · rw [if_pos hf] at he'
            exact node_of_mem_beforeFence k nep.node_index e' he'
          · rw [if_neg hf] at he'
            cases he'
        have hfence2 : ∀ e' ∈ (if ss.nodeHasFence nep.node_index then
            afterFenceEvents k nep.node_index else []),
            eventNode e' = some nep.node_index := by
          intro e' he'
          by_cases hf : ss.nodeHasFence nep.node_index
          · rw [if_pos hf] at he'
            exact node_of_mem_afterFence k nep.node_index e' he'
          · rw [if_neg hf] at he'
            cases he'
        rcases List.mem_append.1 he with h | h
        · rcases List.mem_append.1 h with h' | h'
          · rcases List.mem_append.1 h' with h'' | h''
            · exact Or.inl (hfence e h'')
            · rw [List.mem_singleton] at h''
              subst h''
              exact Or.inl rfl
          · exact Or.inl (hfence2 e h')
        · rw [releaseNodeMLValues_events] at h
          rw [List.mem_map] at h
          obtain ⟨i, hi, hie⟩ := h
          exact Or.inr ⟨i, hi, hie.symm⟩
      · rw [if_neg hok] at he
        rcases List.mem_append.1 he with h | h
        · by_cases hf : ss.nodeHasFence nep.node_index
          · rw [if_pos hf] at h
            exact Or.inl (node_of_mem_beforeFence k nep.node_index e h)
          · rw [if_neg hf] at h
            cases h
        · rw [List.mem_singleton] at h
          subst h
          exact Or.inl rfl

/-- C10: with only-execute-path-to-fetches pruning active, a node excluded
from the reachability set contributes nothing to the window: no fence hook,
no compute and no release of the value slots its free range names appears in
the trace (provided, as the disjointness the planner guarantees, that no
included node's free range names slot `s`).  In particular the pruned node's
to-be-freed slots are left unreleased by the whole call, not just its
compute skipped. -/
theorem C10_pruned_node_fully_skipped (ss : SessionState) (toExec : Nat → Bool)
    (nj s : Nat) (hexc : toExec nj = false) :
    ∀ (n pc : Nat) (frame : ExecutionFrame),
      (∀ j, j < n → toExec (planAt ss (pc + j)).node_index = true →
        s ∉ (freePositions (planAt ss (pc + j))).map
          (fun i => ss.to_be_freed.getD i 0)) →
      (∀ e ∈ (executeRange ss false true toExec frame pc n).2.2,
        eventNode e ≠ some nj)
      ∧ Event.compute nj ∉ (executeRange ss false true toExec frame pc n).2.2
      ∧ Event.release s ∉ (executeRange ss false true toExec frame pc n).2.2 := by
  intro n
  induction n with
  | zero =>
      intro pc frame _
      refine ⟨fun e he => absurd he (List.not_mem_nil e), ?_, ?_⟩
      · exact List.not_mem_nil _
      · exact List.not_mem_nil _
  | succ m ih =>
      intro pc frame hoth
      have hshift : ∀ (f : ExecutionFrame),
          (∀ e ∈ (executeRange ss false true toExec f (pc + 1) m).2.2,
            eventNode e ≠ some nj)
          ∧ Event.compute nj ∉ (executeRange ss false true toExec f (pc + 1) m).2.2
          ∧ Event.release s ∉ (executeRange ss false true toExec f (pc + 1) m).2.2 :=
        fun f => ih (pc + 1) f (fun j hj ht => by
          rw [show pc + 1 + j = pc + (j + 1) from by omega] at ht ⊢
          exact hoth (j + 1) (by omega) ht)
      have hnode : ∀ (e : Event), e ∈ (executeNode ss (planAt ss pc) frame).2.2 →
          toExec (planAt ss pc).node_index = true →
          eventNode e ≠ some nj ∧ e ≠ Event.release s := by
        intro e he ht
        rcases executeNode_events_shape ss (planAt ss pc) frame e he with h | ⟨i, hi, hie⟩
        · constructor
          · rw [h]
            intro hc
            have hnn : (planAt ss pc).node_index = nj := by injection hc
            rw [hnn, hexc] at ht
            cases ht
          · intro hc
            rw [hc] at h
            cases h
        · constructor
          · rw [hie]
            intro hc
            cases hc
          · intro hc
            rw [hc] at hie
            have hs : s = ss.to_be_freed.getD i 0 := by injection hie
            apply hoth 0 (by omega) (by rw [Nat.add_zero]; exact ht)
            rw [Nat.add_zero, List.mem_map]
            exact ⟨i, hi, hs.symm⟩
      show _ ∧ _ ∧ _
      by_cases ht : toExec (planAt ss pc).node_index
      · -- node included: one visit then the rest
        have hred : executeRange ss false true toExec frame pc (m + 1)
            = (let r := executeNode ss (planAt ss pc) frame
               if r.1.isOK then
                 let rest := executeRange ss false true toExec r.2.1 (pc + 1) m
                 (rest.1, rest.2.1, r.2.2 ++ rest.2.2)
               else r) := by
          show (if true && !(toExec (planAt ss pc).node_index) then _ else _) = _
          rw [ht]
          rfl
        rw [hred]
        by_cases hok : ((executeNode ss (planAt ss pc) frame).1).isOK
        · simp only [hok, if_true]
          have hrest := hshift (executeNode ss (planAt ss pc) frame).2.1
          refine ⟨?_, ?_, ?_⟩
          · intro e he
            rcases List.mem_append.1 he with h | h
            · exact (hnode e h ht).1
            · exact hrest.1 e h
          · intro hc
            rcases List.mem_append.1 hc with h | h
            · exact absurd rfl ((hnode _ h ht).1 : eventNode (Event.compute nj) ≠ some nj)
            · exact hrest.2.1 h
          · intro hc
            rcases List.mem_append.1 hc with h | h
            · exact (hnode _ h ht).2 rfl
            · exact hrest.2.2 h
        · simp only [hok, Bool.false_eq_true, if_false]
          refine ⟨fun e he => (hnode e he ht).1, ?_, ?_⟩
          · intro hc
            exact absurd rfl ((hnode _ hc ht).1 : eventNode (Event.compute nj) ≠ some nj)
          · intro hc
            exact (hnode _ hc ht).2 rfl
      · -- node pruned: skipped entirely
        have hred : executeRange ss false true toExec frame pc (m + 1)
            = executeRange ss false true toExec frame (pc + 1) m := by
          show (if true && !(toExec (planAt ss pc).node_index) then _ else _) = _
          rw [Bool.not_eq_true] at ht
          rw [ht]
          rfl
        rw [hred]
        exact hshift frame

/-- C10 witness: the theorem applied to `ssPrune` with node 1 excluded from
the reachability set; slot 6 (the one node 1 would free) is never released
and no event of node 1 appears. -/
theorem C10_witness :
    (∀ e ∈ (executeRange ssPrune false true pruneSet (mkFrame ssPrune [] []) 0 3).2.2,
      eventNode e ≠ some 1)
    ∧ Event.compute 1
        ∉ (executeRange ssPrune false true pruneSet (mkFrame ssPrune [] []) 0 3).2.2
    ∧ Event.release 6
        ∉ (executeRange ssPrune false true pruneSet (mkFrame ssPrune [] []) 0 3).2.2 :=
  C10_pruned_node_fully_skipped ssPrune pruneSet 1 6 rfl 3 0 (mkFrame ssPrune [] [])
    (by decide)

/-! ### Window-scan and registry lemmas -/

theorem scanLoop_ge (ss : SessionState) (start : Nat) :
    ∀ (f pce : Nat), pce ≤ scanLoop ss start pce f := by
  intro f
  induction f with
  | zero => intro pce; exact Nat.le_refl pce
  | succ m ih =>
      intro pce
      show pce ≤ (if scanOpName ss (planAt ss pce).node_index ≠ "YieldOp" ∨ pce = start
                  then scanLoop ss start (pce + 1) m else pce)
      by_cases h : scanOpName ss (planAt ss pce).node_index ≠ "YieldOp" ∨ pce = start
      · rw [if_pos h]
        exact Nat.le_trans (Nat.le_succ pce) (ih (pce + 1))
      · rw [if_neg h]

theorem scanLoop_le (ss : SessionState) (start : Nat) :
    ∀ (f pce : Nat), scanLoop ss start pce f ≤ pce + f := by
  intro f
  induction f with
  | zero => intro pce; exact Nat.le_refl pce
  | succ m ih =>
      intro pce
      show (if scanOpName ss (planAt ss pce).node_index ≠ "YieldOp" ∨ pce = start
            then scanLoop ss start (pce + 1) m else pce) ≤ pce + (m + 1)
      by_cases h : scanOpName ss (planAt ss pce).node_index ≠ "YieldOp" ∨ pce = start
      · rw [if_pos h]
        exact Nat.le_trans (ih (pce + 1)) (by omega)
      · rw [if_neg h]
        omega

theorem findWindowEnd_le (ss : SessionState) (start : Nat)
    (h : start ≤ ss.execution_plan.length) :
    findWindowEnd ss start ≤ ss.execution_plan.length := by
  unfold findWindowEnd
  have := scanLoop_le ss start (ss.execution_plan.length - start) start
  omega

theorem findWindowEnd_gt (ss : SessionState) (start : Nat)
    (h : start < ss.execution_plan.length) :
    start < findWindowEnd ss start := by
  unfold findWindowEnd
  obtain ⟨f', hf'⟩ : ∃ f', ss.execution_plan.length - start = f' + 1 :=
    ⟨ss.execution_plan.length - start - 1, by omega⟩
  rw [hf']
  show start < (if scanOpName ss (planAt ss start).node_index ≠ "YieldOp" ∨ start = start
                then scanLoop ss start (start + 1) f' else start)
  rw [if_pos (Or.inr rfl)]
  exact Nat.lt_of_lt_of_le (Nat.lt_succ_self start) (scanLoop_ge ss start f' (start + 1))

theorem registryFind_update (id : Int) (f' : ExecutionFrame) :
    ∀ (runs : List (Int × ExecutionFrame)),
      registryFind (registryUpdate runs id f') id
        = (registryFind runs id).map (fun _ => f') := by
  intro runs
  induction runs with
  | nil => rfl
  | cons p t ih =>
      by_cases hp : p.1 = id
      · unfold registryUpdate registryFind
        rw [List.map_cons, if_pos hp]
        rw [List.find?_cons, List.find?_cons]
        have h1 : (decide ((id, f').1 = id)) = true := by simp
        have h2 : (decide (p.1 = id)) = true := by simp [hp]
        rw [h1, h2]
        rfl
      · unfold registryUpdate registryFind
        rw [List.map_cons, if_neg hp]
        rw [List.find?_cons, List.find?_cons]
        have h2 : (decide (p.1 = id)) = false := by simp [hp]
        rw [h2]
        exact ih

theorem registryFind_append_left_none (id : Int) :
    ∀ (l1 l2 : List (Int × ExecutionFrame)),
      registryFind l1 id = none →
      registryFind (l1 ++ l2) id = registryFind l2 id := by
  intro l1
  induction l1 with
  | nil => intro l2 _; rfl
  | cons p t ih =>
      intro l2 h
      unfold registryFind at h ⊢
      rw [List.cons_append, List.find?_cons]
      rw [List.find?_cons] at h
      by_cases hp : p.1 = id
      · rw [show (decide (p.1 = id)) = true from by simp [hp]] at h
        cases h
      · rw [show (decide (p.1 = id)) = false from by simp [hp]] at h ⊢
        exact ih l2 h

theorem registryFind_insert_fresh (runs : List (Int × ExecutionFrame)) (id : Int)
    (f : ExecutionFrame) (h : registryFind runs id = none) :
    registryFind (registryInsert runs id f) id = some f := by
  unfold registryInsert
  rw [h]
  rw [registryFind_append_left_none id runs [(id, f)] h]
  unfold registryFind
  rw [List.find?_cons]
  rw [show (decide ((id, f).1 = id)) = true from by simp]
  rfl

theorem registryFind_erase (id : Int) :
    ∀ (runs : List (Int × ExecutionFrame)),
      registryFind (registryErase runs id) id = none := by
  intro runs
  induction runs with
  | nil => rfl
  | cons p t ih =>
      unfold registryErase registryFind
      rw [List.filter_cons]
      by_cases hp : p.1 = id
      · rw [show (decide (p.1 ≠ id)) = false from by simp [hp], if_neg (by simp)]
        exact ih
      · rw [show (decide (p.1 ≠ id)) = true from by simp [hp], if_pos rfl]
        rw [List.find?_cons, show (decide (p.1 = id)) = false from by simp [hp]]
        exact ih

/-! ### The partial-execution paths of the public Execute -/

theorem Execute_newPartial (ss : SessionState) (terminate prune : Bool)
    (toExec : Nat → Bool) (feeds fetches : List Nat) (g : GraphRuns) :
    Execute ss terminate prune toExec feeds fetches DEFAULT_PARTIAL_RUN_ID g
      = runWindow ss terminate prune toExec g.counter (mkFrame ss feeds fetches)
          ⟨registryInsert g.runs g.counter (mkFrame ss feeds fetches), g.counter + 1⟩ := by
  unfold Execute
  rw [if_neg (by unfold DEFAULT_PARTIAL_RUN_ID DEFAULT_RUN_ID; omega),
    if_pos rfl, if_pos (by unfold DEFAULT_PARTIAL_RUN_ID INT64_MAX; omega)]

theorem Execute_resume (ss : SessionState) (terminate prune : Bool)
    (toExec : Nat → Bool) (feeds fetches : List Nat) (rid : Int) (g : GraphRuns)
    (frame0 : ExecutionFrame) (hrid : 0 ≤ rid)
    (hfind : registryFind g.runs rid = some frame0) :
    Execute ss terminate prune toExec feeds fetches rid g
      = runWindow ss terminate prune toExec rid
          (frame0.updateFeedAndFetches feeds fetches)
          ⟨registryUpdate g.runs rid (frame0.updateFeedAndFetches feeds fetches),
           g.counter⟩ := by
  unfold Execute
  rw [if_neg (by unfold DEFAULT_RUN_ID; omega),
    if_neg (by unfold DEFAULT_PARTIAL_RUN_ID; omega), if_pos hrid, hfind]

theorem Execute_unknown_id_fatal (ss : SessionState) (terminate prune : Bool)
    (toExec : Nat → Bool) (feeds fetches : List Nat) (rid : Int) (g : GraphRuns)
    (hrid : 0 ≤ rid) (hfind : registryFind g.runs rid = none) :
    Execute ss terminate prune toExec feeds fetches rid g
      = ⟨RunOutcome.fatal "it != graph_runs_.end()", rid, g, []⟩ := by
  unfold Execute
  rw [if_neg (by unfold DEFAULT_RUN_ID; omega),
    if_neg (by unfold DEFAULT_PARTIAL_RUN_ID; omega), if_pos hrid, hfind]

/-- A window that reaches plan end in non-transfer mode: the run completes,
its registry entry is erased, and the trace is exactly the remaining plan
suffix. -/
theorem runWindow_done (ss : SessionState) (toExec : Nat → Bool) (rid : Int)
    (frame : ExecutionFrame) (g : GraphRuns)
    (htr : ss.transferOwnership = false)
    (hker : ∀ nep ∈ ss.execution_plan, kernelTotalOK ss nep)
    (hc : frame.program_counter ≤ ss.execution_plan.length)
    (hend : findWindowEnd ss frame.program_counter = ss.execution_plan.length) :
    runWindow ss false false toExec rid frame g
      = ⟨RunOutcome.ok, rid,
         ⟨registryErase (registryUpdate g.runs rid
            { (executeRange ss false false toExec frame frame.program_counter
                (ss.execution_plan.length - frame.program_counter)).2.1 with
              program_counter := ss.execution_plan.length }) rid, g.counter⟩,
         rangeTrace ss frame.program_counter
           (ss.execution_plan.length - frame.program_counter)⟩ := by
  have hrange := executeRange_of_ok ss toExec
    (ss.execution_plan.length - frame.program_counter) frame.program_counter frame
    (fun j hj => hker _ (planAt_mem ss (frame.program_counter + j) (by omega)))
  unfold runWindow
  rw [hend]
  simp only [hrange.1, isOK_ok, if_true]
  have hfp : boundaryFencePass ss ss.execution_plan.length = (Status.ok, []) := by
    unfold boundaryFencePass
    rw [if_neg (Nat.lt_irrefl _)]
  rw [hfp]
  simp only [isOK_ok, if_true, htr, Bool.false_eq_true, if_false, if_pos rfl]
  rw [hrange.2, List.append_nil]

/-- A window that stops at a suspension operator strictly before plan end
(and whose cursor update does not accidentally hit plan end): the run stays
registered with the advanced cursor, and the trace is the window followed by
the fence-wait-only pass over the boundary node. -/
theorem runWindow_suspend (ss : SessionState) (toExec : Nat → Bool) (rid : Int)
    (frame : ExecutionFrame) (g : GraphRuns)
    (hker : ∀ nep ∈ ss.execution_plan, kernelTotalOK ss nep)
    (hlt : findWindowEnd ss frame.program_counter < ss.execution_plan.length)
    (hne : (if ss.transferOwnership then findWindowEnd ss frame.program_counter + 1
            else findWindowEnd ss frame.program_counter) ≠ ss.execution_plan.length) :
    ∃ k, ss.getKernel (planAt ss (findWindowEnd ss frame.program_counter)).node_index
          = some k
      ∧ runWindow ss false false toExec rid frame g
        = ⟨RunOutcome.ok, rid,
           ⟨registryUpdate g.runs rid
              { (executeRange ss false false toExec frame frame.program_counter
                  (findWindowEnd ss frame.program_counter - frame.program_counter)).2.1 with
                program_counter :=
                  (if ss.transferOwnership then findWindowEnd ss frame.program_counter + 1
                   else findWindowEnd ss frame.program_counter) },
            g.counter⟩,
           rangeTrace ss frame.program_counter
             (findWindowEnd ss frame.program_counter - frame.program_counter)
             ++ (if ss.nodeHasFence
                   (planAt ss (findWindowEnd ss frame.program_counter)).node_index
                 then beforeFenceEvents k
                   (planAt ss (findWindowEnd ss frame.program_counter)).node_index
                 else [])⟩ := by
  obtain ⟨k, hk, _⟩ := hker _ (planAt_mem ss (findWindowEnd ss frame.program_counter) hlt)
  refine ⟨k, hk, ?_⟩
  have hrange := executeRange_of_ok ss toExec
    (findWindowEnd ss frame.program_counter - frame.program_counter)
    frame.program_counter frame
    (fun j hj => hker _ (planAt_mem ss (frame.program_counter + j) (by omega)))
  unfold runWindow
  simp only [hrange.1, isOK_ok, if_true]
  have hfp : boundaryFencePass ss (findWindowEnd ss frame.program_counter)
      = (Status.ok,
         if ss.nodeHasFence (planAt ss (findWindowEnd ss frame.program_counter)).node_index
         then beforeFenceEvents k
           (planAt ss (findWindowEnd ss frame.program_counter)).node_index
         else []) := by
    unfold boundaryFencePass
    rw [if_pos hlt]
    simp only [hk]
  rw [hfp]
  simp only [isOK_ok, if_true]
  rw [if_neg hne, hrange.2]

theorem computeTrace_fenceIf (b : Prop) [Decidable b] (k : OpKernel) (n : Nat) :
    computeTrace (if b then beforeFenceEvents k n else []) = [] := by
  by_cases hb : b
  · rw [if_pos hb]
    exact computeTrace_beforeFence k n
  · rw [if_neg hb]
    rfl

/-- One unfolding of the caller-side resume loop. -/
theorem resumeLoop_succ (ss : SessionState) (toExec : Nat → Bool)
    (feeds fetches : List Nat) (rid : Int) (g : GraphRuns) (m : Nat) :
    resumeLoop ss toExec feeds fetches rid g (m + 1)
      = (let out := Execute ss false false toExec feeds fetches rid g
         match out.outcome with
         | RunOutcome.ok =>
             if (registryFind out.reg.runs out.run_id).isSome then
               let rest := resumeLoop ss toExec feeds fetches out.run_id out.reg m
               (rest.1, rest.2.1, out.events ++ rest.2.2)
             else (RunOutcome.ok, out.reg, out.events)
         | o => (o, out.reg, out.events)) := rfl

/-- Resuming a suspended non-transfer run until completion executes exactly
the remaining plan suffix. -/
theorem resumeLoop_completes (ss : SessionState) (toExec : Nat → Bool)
    (feeds fetches : List Nat)
    (htr : ss.transferOwnership = false)
    (hker : ∀ nep ∈ ss.execution_plan, kernelTotalOK ss nep) :
    ∀ (fuel : Nat) (rid : Int) (g : GraphRuns) (frame : ExecutionFrame),
      0 ≤ rid →
      registryFind g.runs rid = some frame →
      frame.program_counter < ss.execution_plan.length →
      ss.execution_plan.length - frame.program_counter ≤ fuel →
      (resumeLoop ss toExec feeds fetches rid g fuel).1 = RunOutcome.ok
      ∧ computeTrace (resumeLoop ss toExec feeds fetches rid g fuel).2.2
          = planSeg ss frame.program_counter
              (ss.execution_plan.length - frame.program_counter) := by
  intro fuel
  induction fuel with
  | zero => intro rid g frame _ _ hc hfuel; omega
  | succ m ih =>
      intro rid g frame hrid hfind hc hfuel
      have hresume := Execute_resume ss false false toExec feeds fetches rid g frame
        hrid hfind
      rw [resumeLoop_succ, hresume]
      by_cases hend : findWindowEnd ss frame.program_counter
          = ss.execution_plan.length
      · have hdone := runWindow_done ss toExec rid
          (frame.updateFeedAndFetches feeds fetches)
          ⟨registryUpdate g.runs rid (frame.updateFeedAndFetches feeds fetches),
           g.counter⟩ htr hker (Nat.le_of_lt hc) hend
        rw [hdone]
        dsimp only [ExecutionFrame.updateFeedAndFetches]
        rw [registryFind_erase]
        simp only [Option.isSome_none, Bool.false_eq_true, if_false]
        constructor
        · trivial
        · exact computeTrace_rangeTrace ss _ frame.program_counter
            (fun j hj => by
              obtain ⟨k, hk, _⟩ := hker _ (planAt_mem ss (frame.program_counter + j)
                (by omega))
              exact ⟨k, hk⟩)
      · have hle := findWindowEnd_le ss frame.program_counter (by omega)
        have hlt : findWindowEnd ss frame.program_counter
            < ss.execution_plan.length := by omega
        have hgt := findWindowEnd_gt ss frame.program_counter hc
        obtain ⟨k, hk, hsus⟩ := runWindow_suspend ss toExec rid
          (frame.updateFeedAndFetches feeds fetches)
          ⟨registryUpdate g.runs rid (frame.updateFeedAndFetches feeds fetches),
           g.counter⟩ hker hlt
          (by
            show (if ss.transferOwnership = true then
                    findWindowEnd ss frame.program_counter + 1
                  else findWindowEnd ss frame.program_counter)
                ≠ ss.execution_plan.length
            rw [htr]
            simp only [Bool.false_eq_true, if_false]
            omega)
        rw [htr] at hsus
        simp only [Bool.false_eq_true, if_false] at hsus
        dsimp only [ExecutionFrame.updateFeedAndFetches] at hsus
        dsimp only [ExecutionFrame.updateFeedAndFetches]
        rw [hsus]
        dsimp only
        rw [registryFind_update, registryFind_update, hfind]
        have hmap : ((some frame).map
              (fun _ => { frame with
                feed_mlvalue_idxs := feeds, fetch_mlvalue_idxs := fetches })).map
            (fun _ =>
              { (executeRange ss false false toExec
                  { frame with
                    feed_mlvalue_idxs := feeds, fetch_mlvalue_idxs := fetches }
                  frame.program_counter
                  (findWindowEnd ss frame.program_counter
                    - frame.program_counter)).2.1
                with
                program_counter := findWindowEnd ss frame.program_counter })
            = some
              { (executeRange ss false false toExec
                  { frame with
                    feed_mlvalue_idxs := feeds, fetch_mlvalue_idxs := fetches }
                  frame.program_counter
                  (findWindowEnd ss frame.program_counter
                    - frame.program_counter)).2.1
                with
                program_counter := findWindowEnd ss frame.program_counter } := rfl
        rw [hmap]
        simp only [Option.isSome_some, if_true]
        have hrec := ih rid
          ⟨registryUpdate
            (registryUpdate g.runs rid
              { frame with
                feed_mlvalue_idxs := feeds, fetch_mlvalue_idxs := fetches }) rid
            { (executeRange ss false false toExec
                { frame with
                  feed_mlvalue_idxs := feeds, fetch_mlvalue_idxs := fetches }
                frame.program_counter
                (findWindowEnd ss frame.program_counter - frame.program_counter)).2.1
              with
              program_counter := findWindowEnd ss frame.program_counter },
           g.counter⟩
          { (executeRange ss false false toExec
              { frame with
                feed_mlvalue_idxs := feeds, fetch_mlvalue_idxs := fetches }
              frame.program_counter
              (findWindowEnd ss frame.program_counter - frame.program_counter)).2.1
            with
            program_counter := findWindowEnd ss frame.program_counter }
          hrid
          (by rw [registryFind_update, registryFind_update, hfind]; rfl)
          hlt
          (by
            show ss.execution_plan.length - findWindowEnd ss frame.program_counter ≤ m
            omega)
        have hrec2 := hrec.2
        dsimp only at hrec2
        refine ⟨hrec.1, ?_⟩
        rw [computeTrace_append, computeTrace_append, computeTrace_fenceIf,
          hrec2,
          computeTrace_rangeTrace ss _ frame.program_counter
            (fun j hj => by
              obtain ⟨k2, hk2, _⟩ := hker _ (planAt_mem ss (frame.program_counter + j)
                (by omega))
              exact ⟨k2, hk2⟩)]
        rw [List.append_nil]
        rw [show ss.execution_plan.length - frame.program_counter
            = (findWindowEnd ss frame.program_counter - frame.program_counter)
              + (ss.execution_plan.length - findWindowEnd ss frame.program_counter)
          from by omega]
        rw [planSeg_append]
        congr 2
        omega

/-- C2 counterexample: in ownership-transfer mode the cursor advances one
position past the window end, so the suspension operator at each window
boundary is skipped: on the 3-node plan `ss3T` (YieldOp at position 1) the
concatenated partial windows compute nodes `[0, 2]` while a single full run
of the same plan with the same feeds computes `[0, 1, 2]` — refuting the
claim for transfer mode. -/
theorem C2_counterexample :
    computeTrace (runToCompletion ss3T (fun _ => true) [] [] g0 4).2.2 = [0, 2]
    ∧ computeTrace
        (Execute ss3T false false (fun _ => true) [] [] DEFAULT_RUN_ID g0).events
        = [0, 1, 2]
    ∧ ¬ ([0, 2] : List Nat) = [0, 1, 2] :=
  ⟨by decide, by decide, by decide⟩

/-- C2 (amended): with intermediate-tensor-ownership transfer disabled,
repeatedly invoking `Execute` with the same run identifier until the run
completes, concatenating the windows, yields exactly the node-visit sequence
of a single full run of the same plan with the same feeds, and the final
invocation reports success.  (In transfer mode the cursor update skips the
boundary node, so the sequences differ; see the counterexample.) -/
theorem C2_partial_concat_eq_full (ss : SessionState) (toExec : Nat → Bool)
    (feeds fetches : List Nat) (g : GraphRuns) (fuel : Nat)
    (htr : ss.transferOwnership = false)
    (hker : ∀ nep ∈ ss.execution_plan, kernelTotalOK ss nep)
    (hfresh : registryFind g.runs g.counter = none)
    (hcnt : 0 ≤ g.counter)
    (hfuel : ss.execution_plan.length + 1 ≤ fuel) :
    (runToCompletion ss toExec feeds fetches g fuel).1 = RunOutcome.ok
    ∧ computeTrace (runToCompletion ss toExec feeds fetches g fuel).2.2
        = computeTrace
            (Execute ss false false toExec feeds fetches DEFAULT_RUN_ID g).events := by
  have hrangefull := executeRange_of_ok ss toExec ss.execution_plan.length 0
    (mkFrame ss feeds fetches)
    (fun j hj => hker _ (planAt_mem ss (0 + j) (by omega)))
  have hfull : computeTrace
      (Execute ss false false toExec feeds fetches DEFAULT_RUN_ID g).events
      = planSeg ss 0 ss.execution_plan.length := by
    unfold Execute
    rw [if_pos rfl]
    simp only [hrangefull.1, isOK_ok, if_true]
    rw [hrangefull.2]
    exact computeTrace_rangeTrace ss ss.execution_plan.length 0
      (fun j hj => by
        obtain ⟨k, hk, _⟩ := hker _ (planAt_mem ss (0 + j) (by omega))
        exact ⟨k, hk⟩)
  rw [hfull]
  obtain ⟨m, rfl⟩ : ∃ m, fuel = m + 1 := ⟨fuel - 1, by omega⟩
  unfold runToCompletion
  rw [resumeLoop_succ,
    Execute_newPartial ss false false toExec feeds fetches g]
  have hfindIns := registryFind_insert_fresh g.runs g.counter
    (mkFrame ss feeds fetches) hfresh
  by_cases hend : findWindowEnd ss 0 = ss.execution_plan.length
  · have hdone := runWindow_done ss toExec g.counter (mkFrame ss feeds fetches)
      ⟨registryInsert g.runs g.counter (mkFrame ss feeds fetches), g.counter + 1⟩
      htr hker (Nat.zero_le _) hend
    rw [hdone]
    dsimp only
    rw [registryFind_erase]
    simp only [Option.isSome_none, Bool.false_eq_true, if_false]
    refine ⟨by trivial, ?_⟩
    have := computeTrace_rangeTrace ss (ss.execution_plan.length - 0) 0
      (fun j hj => by
        obtain ⟨k, hk, _⟩ := hker _ (planAt_mem ss (0 + j) (by omega))
        exact ⟨k, hk⟩)
    rw [show (mkFrame ss feeds fetches).program_counter = 0 from rfl]
    rw [this]
    rw [show ss.execution_plan.length - 0 = ss.execution_plan.length from rfl]
  · have hle := findWindowEnd_le ss 0 (Nat.zero_le _)
    have hlt : findWindowEnd ss 0 < ss.execution_plan.length := by
      have h0 : findWindowEnd ss (mkFrame ss feeds fetches).program_counter
          = findWindowEnd ss 0 := rfl
      omega
    have hpos : 0 < ss.execution_plan.length := by omega
    obtain ⟨k, hk, hsus⟩ := runWindow_suspend ss toExec g.counter
      (mkFrame ss feeds fetches)
      ⟨registryInsert g.runs g.counter (mkFrame ss feeds fetches), g.counter + 1⟩
      hker hlt
      (by
        show (if ss.transferOwnership = true then
                findWindowEnd ss (mkFrame ss feeds fetches).program_counter + 1
              else findWindowEnd ss (mkFrame ss feeds fetches).program_counter)
            ≠ ss.execution_plan.length
        rw [htr]
        simp only [Bool.false_eq_true, if_false]
        exact hend)
    rw [htr] at hsus
    simp only [Bool.false_eq_true, if_false] at hsus
    rw [hsus]
    dsimp only
    rw [registryFind_update, hfindIns]
    simp only [Option.map_some', Option.isSome_some, if_true]
    have hgt := findWindowEnd_gt ss 0 hpos
    have hrec := resumeLoop_completes ss toExec feeds fetches htr hker m g.counter
      ⟨registryUpdate
        (registryInsert g.runs g.counter (mkFrame ss feeds fetches)) g.counter
        { (executeRange ss false false toExec (mkFrame ss feeds fetches)
            (mkFrame ss feeds fetches).program_counter
            (findWindowEnd ss (mkFrame ss feeds fetches).program_counter
              - (mkFrame ss feeds fetches).program_counter)).2.1
          with
          program_counter :=
            findWindowEnd ss (mkFrame ss feeds fetches).program_counter },
       g.counter + 1⟩
      { (executeRange ss false false toExec (mkFrame ss feeds fetches)
          (mkFrame ss feeds fetches).program_counter
          (findWindowEnd ss (mkFrame ss feeds fetches).program_counter
            - (mkFrame ss feeds fetches).program_counter)).2.1
        with
        program_counter :=
          findWindowEnd ss (mkFrame ss feeds fetches).program_counter }
      hcnt
      (by rw [registryFind_update, hfindIns]; rfl)
      hlt
      (by
        show ss.execution_plan.length - findWindowEnd ss 0 ≤ m
        omega)
    have hrec2 := hrec.2
    dsimp only at hrec2
    refine ⟨hrec.1, ?_⟩
    rw [computeTrace_append, computeTrace_append, computeTrace_fenceIf, hrec2,
      computeTrace_rangeTrace ss _ (mkFrame ss feeds fetches).program_counter
        (fun j hj => by
          rw [show (mkFrame ss feeds fetches).program_counter = 0 from rfl] at hj
          obtain ⟨k2, hk2, _⟩ := hker _
            (planAt_mem ss ((mkFrame ss feeds fetches).program_counter + j)
              (by
                rw [show (mkFrame ss feeds fetches).program_counter = 0 from rfl]
                omega))
          exact ⟨k2, hk2⟩)]
    rw [List.append_nil]
    rw [show (mkFrame ss feeds fetches).program_counter = 0 from rfl]
    rw [show ss.execution_plan.length
        = (findWindowEnd ss 0 - 0) + (ss.execution_plan.length - findWindowEnd ss 0)
      from by omega]
    rw [planSeg_append]
    have h1 : findWindowEnd ss 0 - 0 = findWindowEnd ss 0 := rfl
    rw [h1]
    congr 2
    · omega
    · omega

/-- C2 witness: the amended theorem applied to the 2-node non-transfer
session `ssA` (a single window covering the whole plan). -/
theorem C2_witness :
    (runToCompletion ssA (fun _ => true) [0] [2] g0 3).1 = RunOutcome.ok
    ∧ computeTrace (runToCompletion ssA (fun _ => true) [0] [2] g0 3).2.2
        = computeTrace
            (Execute ssA false false (fun _ => true) [0] [2] DEFAULT_RUN_ID g0).events :=
  C2_partial_concat_eq_full ssA (fun _ => true) [0] [2] g0 3 rfl
    (fun _ _ => ⟨plainKernel "Add", rfl, fun _ => rfl⟩) rfl (by decide) (by decide)

/-- The window scan on a plan whose node at position 2 is the suspension
operator (and position 1 is not) stops at position 2 — the window end is
exclusive. -/
theorem findWindowEnd_yield2 (ss : SessionState)
    (hlen : ss.execution_plan.length = 5)
    (hn1 : ¬ scanOpName ss (planAt ss 1).node_index = "YieldOp")
    (hy2 : scanOpName ss (planAt ss 2).node_index = "YieldOp") :
    findWindowEnd ss 0 = 2 := by
  unfold findWindowEnd
  rw [hlen]
  show (if scanOpName ss (planAt ss 0).node_index ≠ "YieldOp" ∨ 0 = 0
        then scanLoop ss 0 1 4 else 0) = 2
  rw [if_pos (Or.inr rfl)]
  show (if scanOpName ss (planAt ss 1).node_index ≠ "YieldOp" ∨ 1 = 0
        then scanLoop ss 0 2 3 else 1) = 2
  rw [if_pos (Or.inl hn1)]
  show (if scanOpName ss (planAt ss 2).node_index ≠ "YieldOp" ∨ 2 = 0
        then scanLoop ss 0 3 2 else 2) = 2
  rw [if_neg (fun hcon => by
    rcases hcon with h | h
    · exact h hy2
    · cases h)]

/-- C3 counterexample: on the concrete 5-node session `ss5y` (YieldOp at
position 2, fences on nodes 2 and 3, non-transfer mode), the first partial
run computes only nodes `[0, 1]` — not `{0, 1, 2}` as claimed — performs the
fence-before pass for node 2 (not node 3, whose fence hook never fires), and
leaves the frame cursor at 2, not 3. -/
theorem C3_counterexample :
    computeTrace
      (Execute ss5y false false (fun _ => true) [] [] DEFAULT_PARTIAL_RUN_ID g0).events
      = [0, 1]
    ∧ ¬ computeTrace
        (Execute ss5y false false (fun _ => true) [] [] DEFAULT_PARTIAL_RUN_ID g0).events
        = [0, 1, 2]
    ∧ Event.beforeInput 2 0 "CUDAExecutionProvider" 0
        ∈ (Execute ss5y false false (fun _ => true) [] [] DEFAULT_PARTIAL_RUN_ID g0).events
    ∧ ¬ Event.beforeInput 3 0 "CUDAExecutionProvider" 0
        ∈ (Execute ss5y false false (fun _ => true) [] [] DEFAULT_PARTIAL_RUN_ID g0).events
    ∧ registryFind
        (Execute ss5y false false (fun _ => true) [] [] DEFAULT_PARTIAL_RUN_ID g0).reg.runs
        (Execute ss5y false false (fun _ => true) [] [] DEFAULT_PARTIAL_RUN_ID g0).run_id
        = some ⟨[SlotState.live], 2, [], []⟩
    ∧ ¬ (2 : Nat) = 3 :=
  ⟨by decide, by decide, by decide, by decide, by decide, by decide⟩

/-- C3 (amended): for a 5-node plan whose node at position 2 is the
suspension operator (and position 1 is not), a new partial run executes the
nodes at positions `{0, 1}` — the window end is exclusive of the suspension
operator — performs the fence 'before' hooks for the node at position 2
without invoking its Compute, succeeds, and leaves the frame cursor at 2
(or 3 when intermediate-tensor-ownership transfer is enabled). -/
theorem C3_window_stops_before_yield (ss : SessionState) (toExec : Nat → Bool)
    (feeds fetches : List Nat) (g : GraphRuns)
    (hlen : ss.execution_plan.length = 5)
    (hker : ∀ nep ∈ ss.execution_plan, kernelTotalOK ss nep)
    (hn1 : ¬ scanOpName ss (planAt ss 1).node_index = "YieldOp")
    (hy2 : scanOpName ss (planAt ss 2).node_index = "YieldOp")
    (hfresh : registryFind g.runs g.counter = none) :
    (Execute ss false false toExec feeds fetches DEFAULT_PARTIAL_RUN_ID g).outcome
      = RunOutcome.ok
    ∧ computeTrace
        (Execute ss false false toExec feeds fetches DEFAULT_PARTIAL_RUN_ID g).events
        = [(planAt ss 0).node_index, (planAt ss 1).node_index]
    ∧ (∃ k2, ss.getKernel (planAt ss 2).node_index = some k2 ∧
        (Execute ss false false toExec feeds fetches DEFAULT_PARTIAL_RUN_ID g).events
          = rangeTrace ss 0 2
            ++ (if ss.nodeHasFence (planAt ss 2).node_index
                then beforeFenceEvents k2 (planAt ss 2).node_index else []))
    ∧ (∃ fr, registryFind
          (Execute ss false false toExec feeds fetches DEFAULT_PARTIAL_RUN_ID g).reg.runs
          (Execute ss false false toExec feeds fetches DEFAULT_PARTIAL_RUN_ID g).run_id
          = some fr
        ∧ fr.program_counter = (if ss.transferOwnership then 3 else 2)) := by
  have hw : findWindowEnd ss 0 = 2 := findWindowEnd_yield2 ss hlen hn1 hy2
  have hw0 : findWindowEnd ss (mkFrame ss feeds fetches).program_counter = 2 := hw
  rw [Execute_newPartial]
  obtain ⟨k, hk, hsus⟩ := runWindow_suspend ss toExec g.counter
    (mkFrame ss feeds fetches)
    ⟨registryInsert g.runs g.counter (mkFrame ss feeds fetches), g.counter + 1⟩
    hker (by rw [hw0]; omega)
    (by
      rw [hw0]
      by_cases ht : ss.transferOwnership = true
      · rw [if_pos ht]; omega
      · rw [if_neg ht]; omega)
  rw [hw0] at hk hsus
  rw [hsus]
  dsimp only
  refine ⟨rfl, ?_, ⟨k, hk, ?_⟩, ?_⟩
  · rw [computeTrace_append, computeTrace_fenceIf,
      computeTrace_rangeTrace ss _ (mkFrame ss feeds fetches).program_counter
        (fun j hj => by
          obtain ⟨k2, hk2, _⟩ := hker _
            (planAt_mem ss ((mkFrame ss feeds fetches).program_counter + j)
              (by
                rw [show (mkFrame ss feeds fetches).program_counter = 0 from rfl]
                omega))
          exact ⟨k2, hk2⟩)]
    rw [List.append_nil]
    rfl
  · rfl
  · refine ⟨{ (executeRange ss false false toExec (mkFrame ss feeds fetches)
        (mkFrame ss feeds fetches).program_counter
        (2 - (mkFrame ss feeds fetches).program_counter)).2.1 with
        program_counter := if ss.transferOwnership = true then 2 + 1 else 2 },
      ?_, ?_⟩
    · rw [registryFind_update,
        registryFind_insert_fresh g.runs g.counter (mkFrame ss feeds fetches) hfresh]
      rfl
    · show (if ss.transferOwnership = true then 2 + 1 else 2) = _
      by_cases ht : ss.transferOwnership = true
      · simp [ht]
      · simp [ht]

/-- C3 witness: the amended theorem applied to the concrete session `ss5y`. -/
theorem C3_witness :
    (Execute ss5y false false (fun _ => true) [] [] DEFAULT_PARTIAL_RUN_ID g0).outcome
      = RunOutcome.ok
    ∧ computeTrace
        (Execute ss5y false false (fun _ => true) [] [] DEFAULT_PARTIAL_RUN_ID g0).events
        = [(planAt ss5y 0).node_index, (planAt ss5y 1).node_index]
    ∧ (∃ k2, ss5y.getKernel (planAt ss5y 2).node_index = some k2 ∧
        (Execute ss5y false false (fun _ => true) [] [] DEFAULT_PARTIAL_RUN_ID g0).events
          = rangeTrace ss5y 0 2
            ++ (if ss5y.nodeHasFence (planAt ss5y 2).node_index
                then beforeFenceEvents k2 (planAt ss5y 2).node_index else []))
    ∧ (∃ fr, registryFind
          (Execute ss5y false false (fun _ => true) [] [] DEFAULT_PARTIAL_RUN_ID g0).reg.runs
          (Execute ss5y false false (fun _ => true) [] [] DEFAULT_PARTIAL_RUN_ID g0).run_id
          = some fr
        ∧ fr.program_counter = (if ss5y.transferOwnership then 3 else 2)) :=
  C3_window_stops_before_yield ss5y (fun _ => true) [] [] g0 (by decide)
    (fun nep _ => ⟨(if nep.node_index = 2 then fencedKernel "YieldOp"
                    else fencedKernel "Add"), rfl,
      fun f => by
        by_cases h : nep.node_index = 2
        · rw [if_pos h]; rfl
        · rw [if_neg h]; rfl⟩)
    (by decide) (by decide) rfl

/-- C4 code-bug evidence: on the 1-node plan `ss1T` with ownership transfer
enabled, a new partial run executes the whole plan (its window reaches plan
end), yet — because the cursor update sets the cursor to window end plus one,
i.e. plan size + 1, and the erase condition tests equality with plan size —
the registry entry is NOT removed: it survives with cursor 2, and a
subsequent `Execute` with the minted identifier succeeds vacuously (empty
window, no events) instead of failing fatally.  In non-transfer mode (`ss1`)
the same run is erased on completion and resumption does fail fatally. -/
theorem C4_transfer_completion_not_erased :
    computeTrace
      (Execute ss1T false false (fun _ => true) [] [] DEFAULT_PARTIAL_RUN_ID g0).events
      = [0]
    ∧ (Execute ss1T false false (fun _ => true) [] [] DEFAULT_PARTIAL_RUN_ID g0).outcome
      = RunOutcome.ok
    ∧ registryFind
        (Execute ss1T false false (fun _ => true) [] [] DEFAULT_PARTIAL_RUN_ID g0).reg.runs
        (Execute ss1T false false (fun _ => true) [] [] DEFAULT_PARTIAL_RUN_ID g0).run_id
        = some ⟨[], 2, [], []⟩
    ∧ (Execute ss1T false false (fun _ => true) [] [] 0
        (Execute ss1T false false (fun _ => true) [] [] DEFAULT_PARTIAL_RUN_ID g0).reg).outcome
      = RunOutcome.ok
    ∧ (Execute ss1T false false (fun _ => true) [] [] 0
        (Execute ss1T false false (fun _ => true) [] [] DEFAULT_PARTIAL_RUN_ID g0).reg).events
      = []
    ∧ (Execute ss1 false false (fun _ => true) [] [] DEFAULT_PARTIAL_RUN_ID g0).reg.runs
      = []
    ∧ (Execute ss1 false false (fun _ => true) [] [] 0
        (Execute ss1 false false (fun _ => true) [] [] DEFAULT_PARTIAL_RUN_ID g0).reg).outcome
      = RunOutcome.fatal "it != graph_runs_.end()" :=
  ⟨by decide, by decide, by decide, by decide, by decide, by decide, by decide⟩

/-- C9 code-bug evidence: the source's id-space guard
`ORT_ENFORCE(run_id < INT64_MAX)` tests `run_id`, which at that point still
holds the (negative) new-partial-run sentinel, so it can never fire: with the
run counter already at `INT64_MAX`, starting a new partial run succeeds —
minting the id `INT64_MAX` and pushing the counter past the 64-bit maximum —
instead of failing fatally as the claim (and the guard's evident intent)
requires. -/
theorem C9_exhaustion_guard_vacuous :
    DEFAULT_PARTIAL_RUN_ID < INT64_MAX
    ∧ (Execute ss1 false false (fun _ => true) [] [] DEFAULT_PARTIAL_RUN_ID
        ⟨[], INT64_MAX⟩).outcome = RunOutcome.ok
    ∧ (Execute ss1 false false (fun _ => true) [] [] DEFAULT_PARTIAL_RUN_ID
        ⟨[], INT64_MAX⟩).run_id = INT64_MAX
    ∧ (Execute ss1 false false (fun _ => true) [] [] DEFAULT_PARTIAL_RUN_ID
        ⟨[], INT64_MAX⟩).reg.counter = INT64_MAX + 1 :=
  ⟨by decide, by decide, by decide, by decide⟩

end SeqExec
